import Mathlib

/-!
Verification of container-image-exporter: image cache, resolver, jitter and scrape.

A shallow embedding of `internal/controller` (cache.go, reconciler.go,
metrics.go, options.go, setup.go) and theorems about it.

Conventions of the embedding:

* Go maps with string keys are total functions `String → Option V`
  (absent key = `none`); an assignment `m[k] = v` is a pointwise update.
* `time.Time` and `time.Duration` are integers counting nanoseconds.  A
  `time.Duration` is an `int64`; arithmetic on it wraps (`wrap64`).
* A Go call either returns or panics: `Outcome`.  A returned `error` is the
  `Except Error` layer below that.
* Collaborators outside the repository (registry, cluster client, reference
  parser, random source) are explicit arguments.
-/

namespace ContainerImageExporter

/-! ## Errors and outcomes -/

/-- Go `error` values that occur in the controller package: the sentinel
`ErrContainerImageNotFound`, an error produced by a collaborator, and
`fmt.Errorf("<ctx>: %w", inner)`, with `wrapNil` for the case where the
wrapped `inner` is the nil error. -/
inductive Error where
  | notFound : Error
  | external (msg : String) : Error
  | wrap (ctx : String) (inner : Error) : Error
  | wrapNil (ctx : String) : Error
  deriving DecidableEq, Repr

/-- The call `fmt.Errorf("<ctx>: %w", err)` on a possibly nil `err`. -/
def Errorf (ctx : String) : Option Error → Error
  | some e => .wrap ctx e
  | none => .wrapNil ctx

deriving instance DecidableEq for Except

/-- The `errors.Is(err, ErrContainerImageNotFound)` test on a non-nil error:
follows the `%w` chain. -/
def Error.isNotFound : Error → Bool
  | .notFound => true
  | .external _ => false
  | .wrap _ e => e.isNotFound
  | .wrapNil _ => false

/-- The `errors.Is(err, ErrContainerImageNotFound)` test on a possibly nil
error; `errors.Is(nil, target)` is false for a non-nil target. -/
def errorsIsNotFound : Option Error → Bool
  | none => false
  | some e => e.isNotFound

/-- The result of running a Go function: it returns a value or it panics. -/
inductive Outcome (α : Type) where
  | ret (a : α) : Outcome α
  | panic (msg : String) : Outcome α
  deriving DecidableEq, Repr

/-- Sequencing of Go calls: a panic propagates. -/
def Outcome.bind {α β : Type} (x : Outcome α) (f : α → Outcome β) : Outcome β :=
  match x with
  | .ret a => f a
  | .panic m => .panic m

/-! ## References (`name.Reference`) -/

/-- A parsed image reference, `name.Reference`: either a `name.Tag` or a
`name.Digest`.  `name.NewDigest` accepts only digests of the form
`sha256:<hex>`, so a digest reference is kept as its repository and the hex
part. -/
inductive Reference where
  | tag (repo : String) (tagStr : String) : Reference
  | digest (repo : String) (hex : String) : Reference
  deriving DecidableEq, Repr

/-- The method `ref.String()`, the key of the alias table.  The library
returns the text the reference was parsed from; the embedding keeps the
references whose text is written out as `repo:tag` or `repo@sha256:hex`, and
the cache uses the string only as a key, up to equality. -/
def Reference.String : Reference → String
  | .tag repo t => repo ++ ":" ++ t
  | .digest repo hex => repo ++ "@sha256:" ++ hex

/-- The method `name.Digest.DigestStr()`. -/
def DigestStr (hex : String) : String := "sha256:" ++ hex

/-! ## The cache (cache.go) -/

/-- The struct `ContainerImage` of reconciler.go.  The two Go maps are kept as
association lists (their iteration order is the list order). -/
structure ContainerImage where
  Digest : String
  Annotations : List (String × String)
  Labels : List (String × String)
  Size : Int
  Created : Int
  deriving DecidableEq, Repr

/-- The struct `CachedContainerImage` of cache.go: the embedded image and
the time it was stored. -/
structure CachedContainerImage where
  ContainerImage : ContainerImage
  Time : Int
  deriving DecidableEq, Repr

/-- The struct `cacheImpl`: `digestMap` is the alias table (reference string
to digest), `imageMap` the metadata table (digest to cached image).  The
mutex serialises the calls, so each call is a function of the state. -/
structure cacheImpl where
  digestMap : String → Option String
  imageMap : String → Option CachedContainerImage

/-- The constructor `NewContainerImageCache`: both tables empty. -/
def NewContainerImageCache : cacheImpl :=
  { digestMap := fun _ => none, imageMap := fun _ => none }

/-- Assignment `m[k] = v` on a Go map. -/
def mapSet {V : Type} (m : String → Option V) (k : String) (v : V) : String → Option V :=
  fun k' => if k' = k then some v else m k'

/-- The method `cacheImpl.Get`.  The state is not changed by it. -/
def cacheImpl.Get (c : cacheImpl) (ref : Reference) : Except Error CachedContainerImage :=
  let digestStr : String :=
    match ref with
    | .digest _ hex => DigestStr hex
    | r =>
      match c.digestMap r.String with
      | some digest => digest
      | none => ""
  if digestStr = "" then
    .error Error.notFound
  else
    match c.imageMap digestStr with
    | none => .error Error.notFound
    | some img => .ok img

/-- The method `cacheImpl.Put`; `img = none` is the nil pointer and `now`
the value of `time.Now()`.  Returns the error (always nil, `none`) and the
state after the call. -/
def cacheImpl.Put (c : cacheImpl) (ref : Reference) (img : Option ContainerImage)
    (now : Int) : Option Error × cacheImpl :=
  match img with
  | none => (none, c)
  | some i =>
    (none,
      { digestMap := mapSet c.digestMap ref.String i.Digest,
        imageMap := mapSet c.imageMap i.Digest { ContainerImage := i, Time := now } })

/-! ## Jitter (reconciler.go, `addJitter`) -/

/-- Reduction of an integer to the range of `int64`: what Go arithmetic on
`int64` yields for the mathematical result `x`. -/
def wrap64 (x : Int) : Int := (x + 2 ^ 63) % 2 ^ 64 - 2 ^ 63

/-- The call `rand.Int63n(n)` of math/rand on the outcome `raw` of the random
source: it panics for `n <= 0` and otherwise yields a number in `[0, n)`;
every number of that range is the result for some outcome. -/
def Int63n (raw : Nat) (n : Int) : Outcome Int :=
  if n ≤ 0 then .panic "invalid argument to Int63n" else .ret ((raw : Int) % n)

/-- The function `addJitter`; `raw` is the outcome of the random source.
`d / 6` is Go's truncating division and `d + jitter` an `int64` sum. -/
def addJitter (d : Int) (raw : Nat) : Outcome Int :=
  if d ≤ 0 then
    .ret d
  else
    let maxJitter := Int.tdiv d 6
    (Int63n raw maxJitter).bind fun jitter => .ret (wrap64 (d + jitter))

/-! ## Platforms and registry values (go-containerregistry) -/

/-- The struct `v1.Platform`. -/
structure Platform where
  Architecture : String
  OS : String
  OSVersion : String
  OSFeatures : List String
  Variant : String
  Features : List String
  deriving DecidableEq, Repr

/-- The helper `stringSliceEqualIgnoreOrder` of `v1`: both slices are sorted
and compared element by element, so they are equal up to order. -/
def stringSliceEqualIgnoreOrder (a b : List String) : Bool := a.isPerm b

/-- The method `v1.Platform.Equals`. -/
def Platform.Equals (p o : Platform) : Bool :=
  p.OS == o.OS && p.Architecture == o.Architecture && p.Variant == o.Variant &&
    p.OSVersion == o.OSVersion &&
    stringSliceEqualIgnoreOrder p.OSFeatures o.OSFeatures &&
    stringSliceEqualIgnoreOrder p.Features o.Features

/-- The struct `v1.Descriptor` as it occurs in an index manifest: the digest of
the child and its platform, a pointer that may be nil (`none`). -/
structure v1Descriptor where
  Digest : String
  Platform : Option Platform
  deriving DecidableEq, Repr

/-- The fields of `v1.Manifest` that are read: the size of the config blob and
the sizes of the layers. -/
structure Manifest where
  ConfigSize : Int
  LayerSizes : List Int
  deriving DecidableEq, Repr

/-- The fields of `v1.ConfigFile` that are read: `Config.Labels` and
`Created.Time`. -/
structure ConfigFile where
  Labels : List (String × String)
  Created : Int
  deriving DecidableEq, Repr

/-- The interface `v1.Image`: the results of `Manifest()` and `ConfigFile()`. -/
structure Image where
  Manifest : Except Error Manifest
  ConfigFile : Except Error ConfigFile
  deriving DecidableEq, Repr

/-- The interface `v1.ImageIndex`: the result of `IndexManifest()` (its
`Manifests` list) and the method `Image(digest)`. -/
structure ImageIndex where
  IndexManifest : Except Error (List v1Descriptor)
  Image : String → Except Error Image

/-- The struct `remote.Descriptor` returned by `remote.Get`. -/
structure remoteDescriptor where
  MediaType : String
  Digest : String
  Annotations : List (String × String)
  ImageIndex : Except Error ImageIndex
  Image : Except Error Image

/-- The constant `types.OCIImageIndex`. -/
def OCIImageIndex : String := "application/vnd.oci.image.index.v1+json"

/-- The constant `types.DockerManifestList`. -/
def DockerManifestList : String := "application/vnd.docker.distribution.manifest.list.v2+json"

/-! ## Selection of an image (reconciler.go, `getImage`) -/

/-- The loop `for _, manifest := range indexManifest.Manifests` of `getImage`
for a configured platform: `some m` when the loop returns with child `m`,
`none` when it runs to its end.  `manifest.Platform.Equals(*platform)`
dereferences `manifest.Platform`, which panics on a nil pointer. -/
def scanManifests (platform : Platform) : List v1Descriptor → Outcome (Option v1Descriptor)
  | [] => .ret none
  | manifest :: rest =>
    match manifest.Platform with
    | none => .panic "invalid memory address or nil pointer dereference"
    | some mp => if mp.Equals platform then .ret (some manifest) else scanManifests platform rest

/-- The child of a non-empty manifest list `first :: rest` whose digest
`getImage` passes to `idx.Image`. -/
def selectManifest (platform : Option Platform) (first : v1Descriptor)
    (rest : List v1Descriptor) : Outcome v1Descriptor :=
  match platform with
  | some p =>
    (scanManifests p (first :: rest)).bind fun found =>
      match found with
      | some manifest => .ret manifest
      | none => .ret first
  | none => .ret first

/-- The function `getImage(desc, platform)`. -/
def getImage (desc : remoteDescriptor) (platform : Option Platform) :
    Outcome (Except Error Image) :=
  if desc.MediaType = OCIImageIndex ∨ desc.MediaType = DockerManifestList then
    match desc.ImageIndex with
    | .error err => .ret (.error (Errorf "fetching index" (some err)))
    | .ok idx =>
      match idx.IndexManifest with
      | .error err => .ret (.error (Errorf "fetching manifest" (some err)))
      | .ok [] => .ret (.error (Errorf "no manifests in index" none))
      | .ok (first :: rest) =>
        (selectManifest platform first rest).bind fun manifest =>
          .ret (idx.Image manifest.Digest)
  else
    .ret desc.Image

/-! ## The resolver (reconciler.go, `ContainerImageReconciler.getImage`) -/

/-- The struct `schema.GroupVersionKind`. -/
structure GroupVersionKind where
  Group : String
  Version : String
  Kind : String
  deriving DecidableEq, Repr

/-- The method `schema.GroupVersionKind.String`. -/
def GroupVersionKind.String (gvk : GroupVersionKind) : String :=
  gvk.Group ++ "/" ++ gvk.Version ++ ", Kind=" ++ gvk.Kind

/-- The fields of `ContainerImageReconciler` that the resolver reads.  The
field `Cache` is an interface value shared between the reconcilers; its state
is passed to each call (`none` is the nil interface). -/
structure ContainerImageReconciler where
  GroupVersionKind : GroupVersionKind
  CacheDuration : Int
  Platform : Option Platform
  deriving DecidableEq, Repr

/-- The collaborators of the resolver: `name.ParseReference` and
`remote.Get`. -/
structure Registry where
  ParseReference : String → Except Error Reference
  remoteGet : Reference → Except Error remoteDescriptor

/-- The block `if r.Cache != nil` of the resolver: `some x` when the
function returns `x` from inside the block, `none` when control passes on to
`remote.Get`.  `now` is the value of `time.Now()`. -/
def cacheLookup (r : ContainerImageReconciler) (c : cacheImpl) (now : Int)
    (ref : Reference) : Option (Except Error ContainerImage) :=
  let got := c.Get ref
  let err : Option Error :=
    match got with
    | .ok _ => none
    | .error e => some e
  let hit : Option ContainerImage :=
    match got with
    | .ok cimg => if now < cimg.Time + r.CacheDuration then some cimg.ContainerImage else none
    | .error _ => none
  match hit with
  | some img => some (.ok img)
  | none =>
    if !errorsIsNotFound err then
      some (.error (Errorf "fetching image details from cache" err))
    else
      none

/-- The sum `manifest.Config.Size + Σ layer.Size` in `int64` arithmetic. -/
def imageSize (m : Manifest) : Int :=
  m.LayerSizes.foldl (fun sz layer => wrap64 (sz + layer)) m.ConfigSize

/-- The part of the resolver from `remote.Get` on.  `putNow` is the value of
`time.Now()` inside `Cache.Put`. -/
def fetchAndCache (r : ContainerImageReconciler) (reg : Registry) (cache : Option cacheImpl)
    (putNow : Int) (ref : Reference) : Outcome (Except Error ContainerImage × Option cacheImpl) :=
  match reg.remoteGet ref with
  | .error err => .ret (.error (Errorf ("getting descriptor: " ++ ref.String) (some err)), cache)
  | .ok desc =>
    (getImage desc r.Platform).bind fun res =>
      match res with
      | .error err => .ret (.error (Errorf "getting image" (some err)), cache)
      | .ok img =>
        match img.Manifest with
        | .error err => .ret (.error (Errorf "getting manifest" (some err)), cache)
        | .ok manifest =>
          match img.ConfigFile with
          | .error err => .ret (.error (Errorf "getting config" (some err)), cache)
          | .ok configFile =>
            let cimg : ContainerImage :=
              { Digest := desc.Digest, Annotations := desc.Annotations,
                Labels := configFile.Labels, Size := imageSize manifest,
                Created := configFile.Created }
            match cache with
            | none => .ret (.ok cimg, none)
            | some c =>
              match c.Put ref (some cimg) putNow with
              | (some err, c') =>
                .ret (.error (Errorf ("putting details for " ++ desc.Digest ++ " into the cache")
                  (some err)), some c')
              | (none, c') => .ret (.ok cimg, some c')

/-- The method `ContainerImageReconciler.getImage`: the result and the state
of the cache after the call.  `now` is the clock at the freshness test,
`putNow` the clock at the write to the cache. -/
def ContainerImageReconciler.getImage (r : ContainerImageReconciler) (reg : Registry)
    (cache : Option cacheImpl) (now putNow : Int) (imgRef : String) :
    Outcome (Except Error ContainerImage × Option cacheImpl) :=
  match reg.ParseReference imgRef with
  | .error err => .ret (.error (Errorf "parsing image reference" (some err)), cache)
  | .ok ref =>
    let early : Option (Except Error ContainerImage) :=
      match cache with
      | none => none
      | some c => cacheLookup r c now ref
    match early with
    | some res => .ret (res, cache)
    | none => fetchAndCache r reg cache putNow ref

/-! ## Options and setup (options.go, setup.go) -/

/-- The struct `options`. -/
structure options where
  cacheDuration : Int
  platform : Option Platform
  deriving DecidableEq, Repr

/-- The option `WithCacheDuration(d)`, a function on `options`. -/
def WithCacheDuration (d : Int) : options → options :=
  fun o => if d ≤ 0 then o else { o with cacheDuration := d }

/-- The option `WithPlatform(platform)`. -/
def WithPlatform (platform : Option Platform) : options → options :=
  fun o => { o with platform := platform }

/-- The duration `time.Hour` in nanoseconds. -/
def Hour : Int := 3600000000000

/-- The table `resources` of setup.go (the `Object` prototypes are left out). -/
def resources : List GroupVersionKind :=
  [ { Group := "", Version := "v1", Kind := "Pod" },
    { Group := "apps", Version := "v1", Kind := "Deployment" },
    { Group := "apps", Version := "v1", Kind := "StatefulSet" },
    { Group := "apps", Version := "v1", Kind := "DaemonSet" },
    { Group := "batch", Version := "v1", Kind := "Job" },
    { Group := "batch", Version := "v1", Kind := "CronJob" } ]

/-- The options that `SetupControllers` ends up with: the default of one
hour, then every option applied in order. -/
def setupOptions (opts : List (options → options)) : options :=
  opts.foldl (fun o opt => opt o) { cacheDuration := 1 * Hour, platform := none }

/-- The loop of `SetupControllers` that builds and registers one reconciler
per resource; `complete` is the result of registering a controller with the
manager. -/
def setupReconcilers (o : options) (complete : GroupVersionKind → Option Error) :
    List GroupVersionKind → Except Error (List ContainerImageReconciler)
  | [] => .ok []
  | resource :: rest =>
    let reconciler : ContainerImageReconciler :=
      { GroupVersionKind := resource, CacheDuration := o.cacheDuration, Platform := o.platform }
    match complete resource with
    | some err =>
      .error (Errorf ("unable to create controller for " ++ resource.String) (some err))
    | none =>
      match setupReconcilers o complete rest with
      | .error e => .error e
      | .ok rs => .ok (reconciler :: rs)

/-- The function `SetupControllers`: the reconcilers it registers.
`newForConfig` is the error of `kubernetes.NewForConfig` and `complete` the
result of registering a controller. -/
def SetupControllers (newForConfig : Option Error) (complete : GroupVersionKind → Option Error)
    (opts : List (options → options)) : Except Error (List ContainerImageReconciler) :=
  let o := setupOptions opts
  match newForConfig with
  | some err => .error err
  | none => setupReconcilers o complete resources

/-! ## Unstructured objects and container specs (reconciler.go) -/

/-- The JSON values held by `unstructured.Unstructured.Object`: nil, bool,
number, string, `[]interface{}` and `map[string]interface{}` (a map is the
list of its entries; a lookup takes the first entry with the key). -/
inductive Value where
  | null : Value
  | bool (b : Bool) : Value
  | num (n : Int) : Value
  | str (s : String) : Value
  | arr (xs : List Value) : Value
  | obj (fields : List (String × Value)) : Value

/-- The function `unstructured.NestedFieldNoCopy`: value, found, error. -/
def NestedFieldNoCopy : Value → List String → Option Value × Bool × Option Error
  | val, [] => (some val, true, none)
  | .null, _ :: _ => (none, false, none)
  | .obj m, field :: rest =>
    match m.lookup field with
    | some v => NestedFieldNoCopy v rest
    | none => (none, false, none)
  | _, _ :: _ => (none, false, some (.external "accessor error: not a map"))

/-- The function `unstructured.NestedSlice`: slice (nil is `[]`), found,
error. -/
def NestedSlice (obj : Value) (fields : List String) : List Value × Bool × Option Error :=
  match NestedFieldNoCopy obj fields with
  | (val, found, err) =>
    if !found || err.isSome then
      ([], found, err)
    else
      match val with
      | some (.arr xs) => (xs, true, none)
      | _ => ([], false, some (.external "accessor error: not a slice"))

/-- The struct `ContainerSpec`. -/
structure ContainerSpec where
  JSONPath : String
  Name : String
  Image : String
  deriving DecidableEq, Repr

/-- The table `containerPaths` of `containerSpecs`. -/
def containerPaths : List (List String) :=
  [ ["spec", "initContainers"],
    ["spec", "containers"],
    ["spec", "ephemeralContainers"],
    ["spec", "template", "spec", "initContainers"],
    ["spec", "template", "spec", "containers"],
    ["spec", "jobTemplate", "spec", "template", "spec", "initContainers"],
    ["spec", "jobTemplate", "spec", "template", "spec", "containers"] ]

/-- The string `fmt.Sprintf("{.%s[%d]}", strings.Join(containerPath, "."), i)`. -/
def jsonPath (containerPath : List String) (i : Nat) : String :=
  "\x7b." ++ ".".intercalate containerPath ++ "[" ++ toString i ++ "]\x7d"

/-- The inner loop `for i, container := range containers` of `containerSpecs`,
from index `i` on: the specs it appends. -/
def containerSpecsLoop (containerPath : List String) : Nat → List Value → List ContainerSpec
  | _, [] => []
  | i, container :: rest =>
    match container with
    | .obj data =>
      match data.lookup "name" with
      | some (.str name) =>
        match data.lookup "image" with
        | some (.str image) =>
          { JSONPath := jsonPath containerPath i, Name := name, Image := image } ::
            containerSpecsLoop containerPath (i + 1) rest
        | _ => containerSpecsLoop containerPath (i + 1) rest
      | _ => containerSpecsLoop containerPath (i + 1) rest
    | _ => containerSpecsLoop containerPath (i + 1) rest

/-- The outer loop `for _, containerPath := range containerPaths`. -/
def containerSpecsPaths (obj : Value) : List (List String) → List ContainerSpec
  | [] => []
  | containerPath :: rest =>
    containerSpecsLoop containerPath 0 (NestedSlice obj containerPath).1 ++
      containerSpecsPaths obj rest

/-- The function `containerSpecs`. -/
def containerSpecs (obj : Value) : List ContainerSpec :=
  containerSpecsPaths obj containerPaths

/-! ## The exporter (metrics.go) -/

/-- The constant `namespace`. -/
def «namespace» : String := "container_image"

/-- The function `prometheus.BuildFQName`. -/
def BuildFQName (ns subsystem name : String) : String :=
  if name = "" then ""
  else if ns ≠ "" ∧ subsystem ≠ "" then "_".intercalate [ns, subsystem, name]
  else if ns ≠ "" then "_".intercalate [ns, name]
  else if subsystem ≠ "" then "_".intercalate [subsystem, name]
  else name

/-- The fields of `prometheus.Desc` set by `prometheus.NewDesc`. -/
structure Desc where
  fqName : String
  help : String
  variableLabels : List String
  deriving DecidableEq, Repr

/-- The descriptor `metricContainerInfo`. -/
def metricContainerInfo : Desc :=
  { fqName := BuildFQName «namespace» "" "container_info",
    help := "img about containers running in the cluster, including the image digest resolved by the exporter.",
    variableLabels := ["group", "version", "kind", "namespace", "name", "jsonpath", "image", "digest"] }

/-- The descriptor `metricAnnotation`. -/
def metricAnnotation : Desc :=
  { fqName := BuildFQName «namespace» "" "annotation",
    help := "Annotations from the image manifest.",
    variableLabels := ["digest", "key", "value"] }

/-- The descriptor `metricLabel`. -/
def metricLabel : Desc :=
  { fqName := BuildFQName «namespace» "" "label",
    help := "Labels from the image config.",
    variableLabels := ["digest", "key", "value"] }

/-- The descriptor `metricSize`. -/
def metricSize : Desc :=
  { fqName := BuildFQName «namespace» "" "size_bytes",
    help := "The size of the image in the registry.",
    variableLabels := ["digest"] }

/-- The descriptor `metricCreated`. -/
def metricCreated : Desc :=
  { fqName := BuildFQName «namespace» "" "created",
    help := "The created date from the image config. Expressed as a Unix Epoch Time.",
    variableLabels := ["digest"] }

/-- A gauge built by `prometheus.MustNewConstMetric(desc, GaugeValue, value,
labelValues...)`.  The `float64` value is kept as the integer it is converted
from, which is the value sent for integers of magnitude up to `2 ^ 53`; the
theorems count metrics and do not compare larger values. -/
structure Metric where
  desc : Desc
  value : Int
  labelValues : List String
  deriving DecidableEq, Repr

/-- An item of an `unstructured.UnstructuredList`: its content and the
results of `GroupVersionKind()`, `GetNamespace()` and `GetName()`. -/
structure Unstructured where
  Object : Value
  GroupVersionKind : GroupVersionKind
  Namespace : String
  Name : String

/-- The struct `Exporter` with its collaborators: `clientList` is `client.List` for
the kind, `ParseReference` is `name.ParseReference`, `cache` the state of the
shared cache. -/
structure Exporter where
  clientList : GroupVersionKind → Except Error (List Unstructured)
  ParseReference : String → Except Error Reference
  cache : cacheImpl

/-- The method `Exporter.fetchImage`. -/
def Exporter.fetchImage (e : Exporter) (imgRef : String) : Except Error ContainerImage :=
  match e.ParseReference imgRef with
  | .error err => .error (Errorf "parsing image" (some err))
  | .ok ref =>
    match e.cache.Get ref with
    | .error err => .error (Errorf "fetching image from the cache" (some err))
    | .ok img => .ok img.ContainerImage

/-- The method `time.Time.Unix` on a time in nanoseconds. -/
def Unix (t : Int) : Int := t / 1000000000

/-- The metrics of one digest: size, created, one per annotation, one per
label, in the order they are sent. -/
def digestMetrics (img : ContainerImage) : List Metric :=
  [ { desc := metricSize, value := img.Size, labelValues := [img.Digest] },
    { desc := metricCreated, value := Unix img.Created, labelValues := [img.Digest] } ] ++
  img.Annotations.map (fun kv =>
    { desc := metricAnnotation, value := 1, labelValues := [img.Digest, kv.1, kv.2] }) ++
  img.Labels.map (fun kv =>
    { desc := metricLabel, value := 1, labelValues := [img.Digest, kv.1, kv.2] })

/-- The info metric of one container of `item`. -/
def infoMetric (item : Unstructured) (container : ContainerSpec) (digestStr : String) : Metric :=
  { desc := metricContainerInfo, value := 1,
    labelValues := [item.GroupVersionKind.Group, item.GroupVersionKind.Version,
      item.GroupVersionKind.Kind, item.Namespace, item.Name, container.JSONPath,
      container.Image, digestStr] }

/-- The loop `for _, container := range containerSpecs(&item)` of `Collect`:
the set `digests` after the loop and the metrics sent, in order. -/
def collectContainers (e : Exporter) (item : Unstructured) :
    List ContainerSpec → List String → List String × List Metric
  | [], digests => (digests, [])
  | container :: rest, digests =>
    match e.fetchImage container.Image with
    | .error _ =>
      let r := collectContainers e item rest digests
      (r.1, infoMetric item container "" :: r.2)
    | .ok img =>
      if img.Digest ∈ digests then
        let r := collectContainers e item rest digests
        (r.1, infoMetric item container img.Digest :: r.2)
      else
        let r := collectContainers e item rest (img.Digest :: digests)
        (r.1, infoMetric item container img.Digest :: (digestMetrics img ++ r.2))

/-- The loop `for _, item := range ul.Items` of `Collect`. -/
def collectItems (e : Exporter) : List Unstructured → List String → List String × List Metric
  | [], digests => (digests, [])
  | item :: rest, digests =>
    let r := collectContainers e item (containerSpecs item.Object) digests
    let r' := collectItems e rest r.1
    (r'.1, r.2 ++ r'.2)

/-- The loop `for _, resource := range resources` of `Collect`, which returns
at the first failing `List`: the metrics sent on the channel. -/
def collectResources (e : Exporter) : List GroupVersionKind → List String → List Metric
  | [], _ => []
  | resource :: rest, digests =>
    match e.clientList resource with
    | .error _ => []
    | .ok items =>
      let r := collectItems e items digests
      r.2 ++ collectResources e rest r.1

/-- The method `Exporter.Collect`: the metrics sent on the channel, in
order. -/
def Exporter.Collect (e : Exporter) : List Metric :=
  collectResources e resources []

/-! ## The reconcile loop (reconciler.go, `Reconcile`) -/

/-- The function `unstructured.NestedString`: string, found, error. -/
def NestedString (obj : Value) (fields : List String) : String × Bool × Option Error :=
  match NestedFieldNoCopy obj fields with
  | (val, found, err) =>
    if !found || err.isSome then
      ("", found, err)
    else
      match val with
      | some (.str s) => (s, true, none)
      | _ => ("", false, some (.external "accessor error: not a string"))

/-- The table `imagePullSecretsPaths` of `imagePullSecrets`. -/
def imagePullSecretsPaths : List (List String) :=
  [ ["spec", "imagePullSecrets"],
    ["spec", "template", "spec", "imagePullSecrets"],
    ["spec", "jobTemplate", "spec", "template", "spec", "imagePullSecrets"] ]

/-- The inner loop `for _, pullSecret := range pullSecrets` of
`imagePullSecrets`. -/
def imagePullSecretsLoop : List Value → List String
  | [] => []
  | pullSecret :: rest =>
    match pullSecret with
    | .obj data =>
      match data.lookup "name" with
      | some (.str name) => name :: imagePullSecretsLoop rest
      | _ => imagePullSecretsLoop rest
    | _ => imagePullSecretsLoop rest

/-- The outer loop of `imagePullSecrets` over the paths. -/
def imagePullSecretsPathsLoop (obj : Value) : List (List String) → List String
  | [] => []
  | path :: rest =>
    imagePullSecretsLoop (NestedSlice obj path).1 ++ imagePullSecretsPathsLoop obj rest

/-- The function `imagePullSecrets`. -/
def imagePullSecrets (obj : Value) : List String :=
  imagePullSecretsPathsLoop obj imagePullSecretsPaths

/-- The table `serviceAccountNamePaths` of `serviceAccountName`. -/
def serviceAccountNamePaths : List (List String) :=
  [ ["spec", "serviceAccountName"],
    ["spec", "template", "spec", "serviceAccountName"],
    ["spec", "jobTemplate", "spec", "template", "spec", "serviceAccountName"] ]

/-- The loop of `serviceAccountName`: the first non-empty string found. -/
def serviceAccountNameLoop (obj : Value) : List (List String) → String
  | [] => ""
  | path :: rest =>
    if (NestedString obj path).1 ≠ "" then (NestedString obj path).1
    else serviceAccountNameLoop obj rest

/-- The function `serviceAccountName`. -/
def serviceAccountName (obj : Value) : String :=
  serviceAccountNameLoop obj serviceAccountNamePaths

/-- The struct `ctrl.Result`; `RequeueAfter = 0` is the zero value, no
requeue delay set. -/
structure Result where
  RequeueAfter : Int
  deriving DecidableEq, Repr

/-- The outcome of `r.Client.Get(ctx, req.NamespacedName, obj)`: the object,
an error for which `client.IgnoreNotFound` yields nil, or another error. -/
inductive ClientGet where
  | found (obj : Unstructured) : ClientGet
  | notFound : ClientGet
  | failed (err : Error) : ClientGet

/-- The cluster-side collaborators of `Reconcile`: the lookup of the object
and `k8schain.New` on the namespace, service account and pull secrets of the
object (its error, `none` for nil). -/
structure Cluster where
  clientGet : ClientGet
  k8schainNew : String → String → List String → Option Error

/-- What the loop over the containers leaves behind: the error `Reconcile`
returns (`none` when the loop ran to its end), the state of the cache, and
the calls made to the resolver, in order, each with its result. -/
structure LoopResult (σ : Type) where
  err : Option Error
  state : σ
  calls : List (ContainerSpec × Except Error ContainerImage)

/-- The loop `for _, container := range containerSpecs(obj)` of `Reconcile`
over a resolver `resolve` (the call `r.getImage(ctx, container.Image, ...)`
acting on a state); the first error ends the loop and `Reconcile`. -/
def reconcileLoop {σ : Type}
    (resolve : σ → String → Outcome (Except Error ContainerImage × σ)) :
    List ContainerSpec → σ → Outcome (LoopResult σ)
  | [], s => .ret { err := none, state := s, calls := [] }
  | container :: rest, s =>
    (resolve s container.Image).bind fun out =>
      match out.1 with
      | .error err =>
        .ret { err := some (Errorf "fetching image details" (some err)), state := out.2,
               calls := [(container, out.1)] }
      | .ok _ =>
        (reconcileLoop resolve rest out.2).bind fun R =>
          .ret { err := R.err, state := R.state, calls := (container, out.1) :: R.calls }

/-- What `Reconcile` returns and leaves behind: the pair `(ctrl.Result,
error)`, the state of the cache and the calls made to the resolver. -/
structure ReconcileResult where
  result : Result
  err : Option Error
  cache : Option cacheImpl
  calls : List (ContainerSpec × Except Error ContainerImage)

/-- The method `ContainerImageReconciler.Reconcile`.  One attempt is taken to
run at one instant: `now` and `putNow` are the clock at the freshness test and
at the write to the cache of every call of the resolver in it; `raw` is the
outcome of the random source. -/
def ContainerImageReconciler.Reconcile (r : ContainerImageReconciler) (cl : Cluster)
    (reg : Registry) (cache : Option cacheImpl) (now putNow : Int) (raw : Nat) :
    Outcome ReconcileResult :=
  match cl.clientGet with
  | .notFound => .ret { result := { RequeueAfter := 0 }, err := none, cache := cache, calls := [] }
  | .failed err =>
    .ret { result := { RequeueAfter := 0 }, err := some err, cache := cache, calls := [] }
  | .found obj =>
    match cl.k8schainNew obj.Namespace (serviceAccountName obj.Object)
        (imagePullSecrets obj.Object) with
    | some err =>
      .ret { result := { RequeueAfter := 0 },
             err := some (Errorf "constructing k8s keychain" (some err)),
             cache := cache, calls := [] }
    | none =>
      (reconcileLoop (fun c img => r.getImage reg c now putNow img)
          (containerSpecs obj.Object) cache).bind fun R =>
        match R.err with
        | some err =>
          .ret { result := { RequeueAfter := 0 }, err := some err, cache := R.state,
                 calls := R.calls }
        | none =>
          (addJitter r.CacheDuration raw).bind fun d =>
            .ret { result := { RequeueAfter := d }, err := none, cache := R.state,
                   calls := R.calls }

/-! ## Specification-side helpers -/

/-- The test of the selection loop on one child: its platform is present and
equals the preference. -/
def matchesPlatform (p : Platform) (m : v1Descriptor) : Bool :=
  match m.Platform with
  | some mp => mp.Equals p
  | none => false

/-- The method `Exporter.Describe`: the descriptors sent, in order. -/
def Exporter.Describe : List Desc :=
  [metricContainerInfo, metricAnnotation, metricLabel, metricSize, metricCreated]

/-- A call of a method of the cache. -/
inductive CacheCall where
  | Put (ref : Reference) (img : Option ContainerImage) (now : Int) : CacheCall
  | Get (ref : Reference) : CacheCall

/-- The state of the cache after one call: `Put` stores, `Get` leaves the
state as it is. -/
def cacheImpl.call (c : cacheImpl) : CacheCall → cacheImpl
  | .Put ref img now => (c.Put ref img now).2
  | .Get _ => c

/-- The state of the cache after a sequence of calls. -/
def cacheImpl.run (c : cacheImpl) (calls : List CacheCall) : cacheImpl :=
  calls.foldl cacheImpl.call c

/-- The invariant of the two tables: an entry filed under `d` holds an image
with digest `d`, and every aliased digest has an entry. -/
def cacheImpl.Invariant (c : cacheImpl) : Prop :=
  (∀ d e, c.imageMap d = some e → e.ContainerImage.Digest = d) ∧
    (∀ k d, c.digestMap k = some d → (c.imageMap d).isSome = true)

/-- The value reached from `v` by following the keys of `path` through nested
maps, if there is one. -/
def lookupPath : Value → List String → Option Value
  | v, [] => some v
  | .obj m, key :: rest =>
    match m.lookup key with
    | some v => lookupPath v rest
    | none => none
  | _, _ :: _ => none

/-- The container array found at `path`: the elements of the array that
`path` leads to, and nothing when the path is absent or leads to something
else. -/
def arrayAt (obj : Value) (path : List String) : List Value :=
  match lookupPath obj path with
  | some (.arr xs) => xs
  | _ => []

/-- A well-formed entry of a container array: a map with a string `name` and a
string `image`; the result is that name and image. -/
def wellFormedEntry : Value → Option (String × String)
  | .obj data =>
    match data.lookup "name", data.lookup "image" with
    | some (.str name), some (.str image) => some (name, image)
    | _, _ => none
  | _ => none

/-- The spec of an entry at index `i` of the array at `path`, when the entry
is well-formed. -/
def entrySpec (path : List String) (entry : Nat × Value) : Option ContainerSpec :=
  match wellFormedEntry entry.2 with
  | some (name, image) => some { JSONPath := jsonPath path entry.1, Name := name, Image := image }
  | none => none

/-- Specification of `containerSpecs` in the words of the claim: the
well-formed entries of the arrays at the known paths, by path order and then
by array order, each with the index it has in its array. -/
def containerSpecsSpec (obj : Value) : List ContainerSpec :=
  containerPaths.flatMap fun path => (arrayAt obj path).enum.filterMap (entrySpec path)

/-- A pod whose container array holds an entry without `image` before the
container `app`. -/
def demoPodMalformed : Value :=
  .obj [("spec", .obj [("containers",
    .arr [.obj [("name", .str "broken")],
      .obj [("name", .str "app"), ("image", .str "repo:v1")]])])]

/-- What holds of a returned run `R` of the loop over `cs`: the resolver was
called on a prefix of `cs`, each logged result is a result of the resolver,
an error result is the last call and is the error returned, and a run
without error called the resolver on all of `cs` with success. -/
def LoopFacts {σ : Type} (resolve : σ → String → Outcome (Except Error ContainerImage × σ))
    (cs : List ContainerSpec) (R : LoopResult σ) : Prop :=
  R.calls.map (fun call => call.1) = cs.take R.calls.length ∧
    (∀ k c res, R.calls.get? k = some (c, res) →
      ∃ s s', resolve s c.Image = .ret (res, s')) ∧
    (∀ k c e0, R.calls.get? k = some (c, .error e0) →
      k + 1 = R.calls.length ∧ R.err = some (.wrap "fetching image details" e0)) ∧
    (R.err = none →
      R.calls.map (fun call => call.1) = cs ∧ ∀ call ∈ R.calls, ∃ img, call.2 = .ok img)

/-- The image the registry yields for `ref`: the part of the resolver between
`remote.Get` and the write to the cache, which does not depend on the cache. -/
def remoteImage (r : ContainerImageReconciler) (reg : Registry) (ref : Reference) :
    Outcome (Except Error ContainerImage) :=
  match reg.remoteGet ref with
  | .error err => .ret (.error (Errorf ("getting descriptor: " ++ ref.String) (some err)))
  | .ok desc =>
    (getImage desc r.Platform).bind fun res =>
      match res with
      | .error err => .ret (.error (Errorf "getting image" (some err)))
      | .ok img =>
        match img.Manifest with
        | .error err => .ret (.error (Errorf "getting manifest" (some err)))
        | .ok manifest =>
          match img.ConfigFile with
          | .error err => .ret (.error (Errorf "getting config" (some err)))
          | .ok configFile =>
            .ret (.ok { Digest := desc.Digest, Annotations := desc.Annotations,
                        Labels := configFile.Labels, Size := imageSize manifest,
                        Created := configFile.Created })

/-- The digest `d` is a well-formed answer to `ref`: not empty for a tag
reference, the digest of the reference for a digest reference. -/
def digestFits : Reference → String → Prop
  | .tag _ _, d => d ≠ ""
  | .digest _ hex, d => d = DigestStr hex

/-- A registry whose answers carry a well-formed digest: `remote.Get` yields
a descriptor whose digest is not empty (a `v1.Hash` prints as
`<algorithm>:<hex>`) and, for a digest reference, is the digest asked for
(`remote.Get` rejects a manifest whose digest differs). -/
def Registry.WellFormed (reg : Registry) : Prop :=
  ∀ ref desc, reg.remoteGet ref = .ok desc → digestFits ref desc.Digest

/-- The cache has an entry for the reference: `Get` succeeds. -/
def cacheImpl.Holds (c : cacheImpl) (ref : Reference) : Prop :=
  ∃ e, c.Get ref = .ok e

/-- The extracted containers of a list of objects, each with its object, by
object order and then extraction order. -/
def itemContainers (items : List Unstructured) : List (Unstructured × ContainerSpec) :=
  items.flatMap fun item => (containerSpecs item.Object).map fun c => (item, c)

/-- The extracted containers of a scrape in which every listing succeeds: by
kind in the order of `resources`, then by object, then by extraction order. -/
def Exporter.scrapeContainers (e : Exporter) : List (Unstructured × ContainerSpec) :=
  resources.flatMap fun g =>
    match e.clientList g with
    | .ok items => itemContainers items
    | .error _ => []

/-- The extracted containers that a scrape over the kinds `gs` gets to: those
of the kinds before the first kind whose listing fails. -/
def Exporter.reached (e : Exporter) : List GroupVersionKind → List (Unstructured × ContainerSpec)
  | [] => []
  | g :: rest =>
    match e.clientList g with
    | .ok items => itemContainers items ++ e.reached rest
    | .error _ => []

/-- The digest label of the info metric of a container: the digest of the
image the cache resolves its reference to, and the empty string when the
reference does not resolve. -/
def Exporter.digestLabel (e : Exporter) (c : ContainerSpec) : String :=
  match e.fetchImage c.Image with
  | .ok img => img.Digest
  | .error _ => ""

/-- The image of the first container in `ps` whose reference the cache
resolves to an image with digest `d`. -/
def Exporter.firstResolved (e : Exporter) (d : String) :
    List (Unstructured × ContainerSpec) → Option ContainerImage
  | [] => none
  | p :: rest =>
    match e.fetchImage p.2.Image with
    | .ok img => if img.Digest = d then some img else e.firstResolved d rest
    | .error _ => e.firstResolved d rest

/-- The metrics about digest `d`: those that are not info metrics and whose
first label value is `d`. -/
def perDigest (d : String) (m : Metric) : Bool :=
  decide (m.desc ≠ metricContainerInfo ∧ m.labelValues.head? = some d)

/-- The scrape as one loop over containers paired with their objects: the set
`digests` after the loop and the metrics sent. -/
def collectPairs (e : Exporter) :
    List (Unstructured × ContainerSpec) → List String → List String × List Metric
  | [], digests => (digests, [])
  | p :: rest, digests =>
    match e.fetchImage p.2.Image with
    | .error _ =>
      let r := collectPairs e rest digests
      (r.1, infoMetric p.1 p.2 "" :: r.2)
    | .ok img =>
      if img.Digest ∈ digests then
        let r := collectPairs e rest digests
        (r.1, infoMetric p.1 p.2 img.Digest :: r.2)
      else
        let r := collectPairs e rest (img.Digest :: digests)
        (r.1, infoMetric p.1 p.2 img.Digest :: (digestMetrics img ++ r.2))

/-- The metrics of family `desc` about digest `d`. -/
def ofFamily (desc : Desc) (d : String) (m : Metric) : Bool :=
  decide (m.desc = desc ∧ m.labelValues.head? = some d)

/-! ## Concrete inputs used by the closed theorems -/

/-- An image with the given digest and otherwise empty fields. -/
def imageWithDigest (d : String) : ContainerImage :=
  { Digest := d, Annotations := [], Labels := [], Size := 0, Created := 0 }

/-- The platform `linux/<arch>`. -/
def linuxPlatform (arch : String) : Platform :=
  { Architecture := arch, OS := "linux", OSVersion := "", OSFeatures := [], Variant := "",
    Features := [] }

/-- A single-platform image: config of 10 bytes, layers of 20 and 30 bytes. -/
def demoImage : Image :=
  { Manifest := .ok { ConfigSize := 10, LayerSizes := [20, 30] },
    ConfigFile := .ok { Labels := [("maintainer", "dev")], Created := 5000000000 } }

/-- A descriptor of a single-platform image with digest `sha256:bb`. -/
def demoDescriptor : remoteDescriptor :=
  { MediaType := "application/vnd.oci.image.manifest.v1+json", Digest := "sha256:bb",
    Annotations := [], ImageIndex := .error (.external "not an index"), Image := .ok demoImage }

/-- A registry that knows the reference `repo:v1` and answers with
`demoDescriptor`. -/
def demoRegistry : Registry :=
  { ParseReference := fun s =>
      if s = "repo:v1" then .ok (.tag "repo" "v1") else .error (.external "could not parse reference"),
    remoteGet := fun _ => .ok demoDescriptor }

/-- A reconciler for pods with a duration of 10 nanoseconds. -/
def demoReconciler : ContainerImageReconciler :=
  { GroupVersionKind := { Group := "", Version := "v1", Kind := "Pod" }, CacheDuration := 10,
    Platform := none }

/-- The cache after `repo:v1` was stored at time 0 with digest `sha256:aa`. -/
def demoCache : cacheImpl :=
  (NewContainerImageCache.Put (.tag "repo" "v1") (some (imageWithDigest "sha256:aa")) 0).2

/-- An index whose children are the given descriptors; every child resolves
to `demoImage`. -/
def demoIndex (children : List v1Descriptor) : remoteDescriptor :=
  { MediaType := OCIImageIndex, Digest := "sha256:cc", Annotations := [],
    ImageIndex := .ok { IndexManifest := .ok children, Image := fun _ => .ok demoImage },
    Image := .error (.external "not an image") }

/-- A pod with one container `app` running `repo:v1`. -/
def demoPod : Unstructured :=
  { Object := .obj [("spec", .obj [("containers",
      .arr [.obj [("name", .str "app"), ("image", .str "repo:v1")]])])],
    GroupVersionKind := { Group := "", Version := "v1", Kind := "Pod" },
    Namespace := "default", Name := "web" }

/-- An exporter whose cluster lists one pod and fails to list every other
kind. -/
def demoExporter : Exporter :=
  { clientList := fun g =>
      if g.Kind = "Pod" then .ok [demoPod] else .error (.external "the server is unavailable"),
    ParseReference := demoRegistry.ParseReference,
    cache := demoCache }

/-- A pod with the container `app` running `repo:v1` and the container
`sidecar` whose image `bad` does not parse. -/
def demoPodTwo : Unstructured :=
  { Object := .obj [("spec", .obj [("containers",
      .arr [.obj [("name", .str "app"), ("image", .str "repo:v1")],
        .obj [("name", .str "sidecar"), ("image", .str "bad")],
        .obj [("name", .str "late"), ("image", .str "repo:v1")]])])],
    GroupVersionKind := { Group := "", Version := "v1", Kind := "Pod" },
    Namespace := "default", Name := "web" }

/-- A cluster that finds the given object and builds a keychain. -/
def demoCluster (obj : Unstructured) : Cluster :=
  { clientGet := .found obj, k8schainNew := fun _ _ _ => none }

/-- What `Reconcile` of `demoPodTwo` returns at time 5 on `demoCache`: the
first container is a cache hit, the second fails to parse, the third is not
tried. -/
def demoPodTwoResult : ReconcileResult :=
  { result := { RequeueAfter := 0 },
    err := some (.wrap "fetching image details"
      (.wrap "parsing image reference" (.external "could not parse reference"))),
    cache := some demoCache,
    calls :=
      [({ JSONPath := jsonPath ["spec", "containers"] 0, Name := "app", Image := "repo:v1" },
          .ok (imageWithDigest "sha256:aa")),
        ({ JSONPath := jsonPath ["spec", "containers"] 1, Name := "sidecar", Image := "bad" },
          .error (.wrap "parsing image reference" (.external "could not parse reference")))] }

/-- A registry like `demoRegistry` that answers tag references with
`demoDescriptor` and knows no digest reference. -/
def strictRegistry : Registry :=
  { ParseReference := demoRegistry.ParseReference,
    remoteGet := fun ref =>
      match ref with
      | .tag _ _ => .ok demoDescriptor
      | .digest _ _ => .error (.external "manifest unknown") }

/-- The image that the resolver builds from `demoDescriptor`. -/
def demoFetched : ContainerImage :=
  { Digest := "sha256:bb", Annotations := [], Labels := [("maintainer", "dev")], Size := 60,
    Created := 5000000000 }

/-- The cache after the first resolution of `repo:v1` at time 0, starting
from the empty cache. -/
def demoCacheAfter : cacheImpl :=
  (NewContainerImageCache.Put (.tag "repo" "v1") (some demoFetched) 0).2

/-- What the first `Reconcile` of `demoPod` returns on the empty cache at time
0: success, a requeue after 10 nanoseconds, the image stored. -/
def demoPodFirst : ReconcileResult :=
  { result := { RequeueAfter := 10 }, err := none, cache := some demoCacheAfter,
    calls :=
      [({ JSONPath := jsonPath ["spec", "containers"] 0, Name := "app", Image := "repo:v1" },
        .ok demoFetched)] }

/-- A second pod, `api`, whose container runs the same image `repo:v1` next
to a container whose image is not in the cache. -/
def demoPodB : Unstructured :=
  { Object := .obj [("spec", .obj [("containers",
      .arr [.obj [("name", .str "api"), ("image", .str "repo:v1")],
        .obj [("name", .str "job"), ("image", .str "other")]])])],
    GroupVersionKind := { Group := "", Version := "v1", Kind := "Pod" },
    Namespace := "default", Name := "api" }

/-- An exporter whose cluster lists the pods `web` and `api` and nothing of
any other kind; the cache holds `repo:v1`. -/
def okExporter : Exporter :=
  { clientList := fun g => if g.Kind = "Pod" then .ok [demoPod, demoPodB] else .ok [],
    ParseReference := demoRegistry.ParseReference,
    cache := demoCache }

/-- The cache after an image with the empty digest was stored under the tag
`repo:v1` at time 0 and under the tag `repo:latest` at time 5. -/
def emptyDigestCache : cacheImpl :=
  ((NewContainerImageCache.Put (.tag "repo" "v1") (some (imageWithDigest "")) 0).2.Put
    (.tag "repo" "latest") (some (imageWithDigest "")) 5).2

/-! ## Theorems: the cache -/

theorem DigestStr_ne_empty (hex : String) : DigestStr hex ≠ "" := by
  intro h
  have hl := congrArg String.length h
  simp [DigestStr, String.length_append] at hl
  have : ("sha256:" : String).length = 7 := by decide
  omega

theorem mapSet_same {V : Type} (m : String → Option V) (k : String) (v : V) :
    mapSet m k v k = some v := by
  simp [mapSet]

theorem mapSet_other {V : Type} (m : String → Option V) (k k' : String) (v : V)
    (h : k' ≠ k) : mapSet m k v k' = m k' := by
  simp [mapSet, h]

theorem Get_digest_eq (c : cacheImpl) (repo hex : String) :
    c.Get (.digest repo hex) =
      match c.imageMap (DigestStr hex) with
      | some e => .ok e
      | none => .error Error.notFound := by
  have hne := DigestStr_ne_empty hex
  simp only [cacheImpl.Get, hne, if_false]
  cases c.imageMap (DigestStr hex) <;> rfl

theorem Get_tag_eq (c : cacheImpl) (repo tagStr : String) :
    c.Get (.tag repo tagStr) =
      match c.digestMap (Reference.tag repo tagStr).String with
      | none => .error Error.notFound
      | some d =>
        if d = "" then .error Error.notFound
        else
          match c.imageMap d with
          | some e => .ok e
          | none => .error Error.notFound := by
  simp only [cacheImpl.Get]
  cases hd : c.digestMap (Reference.tag repo tagStr).String with
  | none => simp
  | some d =>
    by_cases hde : d = ""
    · simp [hde]
    · simp only [hde, if_false]
      cases c.imageMap d <;> rfl

/-- C5 (as amended): for every cache state, every digest-form reference `r`
and every image whose `Digest` field is the digest string of `r`, `Put(r, img)`
at time `now` returns no error and a following `Get(r)` returns the entry
holding `img` stamped `now`. -/
theorem cache_put_get_digest (c : cacheImpl) (repo hex : String) (img : ContainerImage)
    (now : Int) (h : img.Digest = DigestStr hex) :
    (c.Put (.digest repo hex) (some img) now).1 = none ∧
      (c.Put (.digest repo hex) (some img) now).2.Get (.digest repo hex) =
        .ok { ContainerImage := img, Time := now } := by
  refine ⟨rfl, ?_⟩
  rw [Get_digest_eq]
  simp [cacheImpl.Put, h, mapSet]

/-- C5, witness of `cache_put_get_digest` on the empty cache. -/
theorem cache_put_get_digest_witness :
    (NewContainerImageCache.Put (.digest "repo" "aa") (some (imageWithDigest "sha256:aa")) 7).1
        = none ∧
      (NewContainerImageCache.Put (.digest "repo" "aa") (some (imageWithDigest "sha256:aa")) 7).2.Get
        (.digest "repo" "aa") =
        .ok { ContainerImage := imageWithDigest "sha256:aa", Time := 7 } :=
  cache_put_get_digest NewContainerImageCache "repo" "aa" (imageWithDigest "sha256:aa") 7
    (by decide)

/-- C5, counterexample to the claim as stated: on the empty cache, `Put` of an
image whose digest is `sha256:bb` under the digest reference `repo@sha256:aa`
is followed by a `Get` of that reference that finds nothing. -/
theorem cache_put_get_digest_counterexample :
    (NewContainerImageCache.Put (.digest "repo" "aa") (some (imageWithDigest "sha256:bb")) 7).2.Get
      (.digest "repo" "aa") = .error Error.notFound := by
  decide

/-- C6 (as amended): for every cache state, tag references `t1`, `t2` and
images `img1`, `img2` with the same non-empty digest, after `Put(t1, img1)`
and then `Put(t2, img2)` both `Get(t1)` and `Get(t2)` return the entry now
stored in the metadata table under that digest, which holds `img2`. -/
theorem cache_tags_share_entry (c : cacheImpl) (repo1 tag1 repo2 tag2 : String)
    (img1 img2 : ContainerImage) (now1 now2 : Int)
    (hd : img1.Digest = img2.Digest) (hne : img2.Digest ≠ "") :
    (((c.Put (.tag repo1 tag1) (some img1) now1).2.Put (.tag repo2 tag2) (some img2) now2).2.Get
        (.tag repo1 tag1) = .ok { ContainerImage := img2, Time := now2 }) ∧
      (((c.Put (.tag repo1 tag1) (some img1) now1).2.Put (.tag repo2 tag2) (some img2) now2).2.Get
        (.tag repo2 tag2) = .ok { ContainerImage := img2, Time := now2 }) ∧
      ((c.Put (.tag repo1 tag1) (some img1) now1).2.Put (.tag repo2 tag2) (some img2)
        now2).2.imageMap img2.Digest = some { ContainerImage := img2, Time := now2 } := by
  refine ⟨?_, ?_, ?_⟩
  · rw [Get_tag_eq]
    by_cases hk : (Reference.tag repo1 tag1).String = (Reference.tag repo2 tag2).String
    · simp [cacheImpl.Put, mapSet, hk, hne]
    · simp [cacheImpl.Put, mapSet, hk, hd, hne]
  · rw [Get_tag_eq]
    simp [cacheImpl.Put, mapSet, hne]
  · simp [cacheImpl.Put, mapSet]

/-- C6, witness of `cache_tags_share_entry`: two tags of one repository. -/
theorem cache_tags_share_entry_witness :
    (((NewContainerImageCache.Put (.tag "repo" "v1") (some (imageWithDigest "sha256:aa")) 1).2.Put
        (.tag "repo" "latest") (some (imageWithDigest "sha256:aa")) 2).2.Get
        (.tag "repo" "v1") = .ok { ContainerImage := imageWithDigest "sha256:aa", Time := 2 }) ∧
      (((NewContainerImageCache.Put (.tag "repo" "v1") (some (imageWithDigest "sha256:aa")) 1).2.Put
        (.tag "repo" "latest") (some (imageWithDigest "sha256:aa")) 2).2.Get
        (.tag "repo" "latest") = .ok { ContainerImage := imageWithDigest "sha256:aa", Time := 2 }) ∧
      ((NewContainerImageCache.Put (.tag "repo" "v1") (some (imageWithDigest "sha256:aa")) 1).2.Put
        (.tag "repo" "latest") (some (imageWithDigest "sha256:aa")) 2).2.imageMap
          (imageWithDigest "sha256:aa").Digest =
        some { ContainerImage := imageWithDigest "sha256:aa", Time := 2 } :=
  cache_tags_share_entry NewContainerImageCache "repo" "v1" "repo" "latest"
    (imageWithDigest "sha256:aa") (imageWithDigest "sha256:aa") 1 2 rfl (by decide)

/-- C6, counterexample to the claim as stated: two images that carry the same,
empty, digest are put under two tags; `Get` of either tag then fails although
the metadata table holds an entry for that digest. -/
theorem cache_tags_share_entry_counterexample :
    (((NewContainerImageCache.Put (.tag "repo" "v1") (some (imageWithDigest "")) 1).2.Put
        (.tag "repo" "latest") (some (imageWithDigest "")) 2).2.Get
        (.tag "repo" "v1") = .error Error.notFound) ∧
      (((NewContainerImageCache.Put (.tag "repo" "v1") (some (imageWithDigest "")) 1).2.Put
        (.tag "repo" "latest") (some (imageWithDigest "")) 2).2.Get
        (.tag "repo" "latest") = .error Error.notFound) ∧
      ((NewContainerImageCache.Put (.tag "repo" "v1") (some (imageWithDigest "")) 1).2.Put
        (.tag "repo" "latest") (some (imageWithDigest "")) 2).2.imageMap "" =
        some { ContainerImage := imageWithDigest "", Time := 2 } := by
  decide

/-- C7: for a digest-form reference `r`, `Get(r)` is the lookup of the digest
string of `r` in the metadata table (not found when absent), whatever the
alias table is: two states with the same metadata table and any two alias
tables give the same result. -/
theorem cache_get_digest_bypasses_alias (digestMap digestMap' : String → Option String)
    (imageMap : String → Option CachedContainerImage) (repo hex : String) :
    (cacheImpl.Get { digestMap := digestMap, imageMap := imageMap } (.digest repo hex) =
        match imageMap (DigestStr hex) with
        | some e => .ok e
        | none => .error Error.notFound) ∧
      cacheImpl.Get { digestMap := digestMap', imageMap := imageMap } (.digest repo hex) =
        cacheImpl.Get { digestMap := digestMap, imageMap := imageMap } (.digest repo hex) := by
  refine ⟨Get_digest_eq _ repo hex, ?_⟩
  rw [Get_digest_eq, Get_digest_eq]

/-- C8 (as amended): for every cache state and every tag reference `r`,
`Get(r)` returns not found if and only if the alias table has no entry for the
string of `r`, or the aliased digest is the empty string, or the aliased
digest has no entry in the metadata table; otherwise it returns the entry
stored under the aliased digest. -/
theorem cache_get_tag_not_found_iff (c : cacheImpl) (repo tagStr : String) :
    (c.Get (.tag repo tagStr) = .error Error.notFound ↔
        (c.digestMap (Reference.tag repo tagStr).String = none ∨
          c.digestMap (Reference.tag repo tagStr).String = some "" ∨
          ∃ d, c.digestMap (Reference.tag repo tagStr).String = some d ∧ c.imageMap d = none)) ∧
      (c.Get (.tag repo tagStr) ≠ .error Error.notFound →
        ∃ d e, c.digestMap (Reference.tag repo tagStr).String = some d ∧
          c.imageMap d = some e ∧ c.Get (.tag repo tagStr) = .ok e) := by
  rw [Get_tag_eq]
  cases hd : c.digestMap (Reference.tag repo tagStr).String with
  | none => simp
  | some d =>
    by_cases hde : d = ""
    · subst hde
      simp
    · cases hi : c.imageMap d with
      | none => simp [hde, hi]
      | some e =>
        simp only [hde, if_false, hi]
        refine ⟨?_, fun _ => ⟨d, e, rfl, hi, rfl⟩⟩
        constructor
        · intro h
          cases h
        · rintro (h | h | ⟨d', h1, h2⟩)
          · cases h
          · exact absurd (Option.some.inj h) hde
          · cases Option.some.inj h1
            rw [hi] at h2
            cases h2

/-- C8, witness of `cache_get_tag_not_found_iff`: after one `Put` under a tag
the lookup of that tag is not "not found", so the entry under the aliased
digest is returned. -/
theorem cache_get_tag_not_found_iff_witness :
    ∃ d e,
      (NewContainerImageCache.Put (.tag "repo" "v1") (some (imageWithDigest "sha256:aa")) 3).2.digestMap
          (Reference.tag "repo" "v1").String = some d ∧
        (NewContainerImageCache.Put (.tag "repo" "v1") (some (imageWithDigest "sha256:aa")) 3).2.imageMap
          d = some e ∧
        (NewContainerImageCache.Put (.tag "repo" "v1") (some (imageWithDigest "sha256:aa")) 3).2.Get
          (.tag "repo" "v1") = .ok e :=
  (cache_get_tag_not_found_iff
    (NewContainerImageCache.Put (.tag "repo" "v1") (some (imageWithDigest "sha256:aa")) 3).2
    "repo" "v1").2 (by decide)

/-- C8, counterexample to the claim as stated: in the state reached from the
empty cache by `Put` of an image with the empty digest under the tag
`repo:v1`, `Get` of that tag is not found although the alias table has an
entry for the tag and the metadata table has an entry for the aliased digest. -/
theorem cache_get_tag_not_found_iff_counterexample :
    ¬ ((NewContainerImageCache.Put (.tag "repo" "v1") (some (imageWithDigest "")) 3).2.Get
          (.tag "repo" "v1") = .error Error.notFound ↔
        ((NewContainerImageCache.Put (.tag "repo" "v1") (some (imageWithDigest "")) 3).2.digestMap
            (Reference.tag "repo" "v1").String = none ∨
          ∃ d,
            (NewContainerImageCache.Put (.tag "repo" "v1") (some (imageWithDigest "")) 3).2.digestMap
              (Reference.tag "repo" "v1").String = some d ∧
            (NewContainerImageCache.Put (.tag "repo" "v1") (some (imageWithDigest "")) 3).2.imageMap
              d = none)) := by
  intro h
  have hget : (NewContainerImageCache.Put (.tag "repo" "v1") (some (imageWithDigest "")) 3).2.Get
      (.tag "repo" "v1") = .error Error.notFound := by decide
  rcases h.mp hget with h1 | ⟨d, h1, h2⟩
  · revert h1
    decide
  · have hd : d = "" := by
      have h3 : (NewContainerImageCache.Put (.tag "repo" "v1") (some (imageWithDigest "")) 3).2.digestMap
          (Reference.tag "repo" "v1").String = some "" := by decide
      rw [h3] at h1
      exact (Option.some.inj h1).symm
    subst hd
    revert h2
    decide

/-- C9: for every cache state, reference `r` and non-nil image `img`,
`Put(r, img)` at time `now` returns no error; afterwards the alias table maps
the string of `r` to `img.Digest`, the metadata table maps `img.Digest` to
`img` stamped `now`, every other key of either table has its previous value,
and every digest that had an entry still has one. -/
theorem cache_put_frame (c : cacheImpl) (r : Reference) (img : ContainerImage) (now : Int) :
    (c.Put r (some img) now).1 = none ∧
      (c.Put r (some img) now).2.digestMap r.String = some img.Digest ∧
      (c.Put r (some img) now).2.imageMap img.Digest =
        some { ContainerImage := img, Time := now } ∧
      (∀ k, k ≠ r.String → (c.Put r (some img) now).2.digestMap k = c.digestMap k) ∧
      (∀ d, d ≠ img.Digest → (c.Put r (some img) now).2.imageMap d = c.imageMap d) ∧
      (∀ d, (c.imageMap d).isSome = true →
        ((c.Put r (some img) now).2.imageMap d).isSome = true) := by
  refine ⟨rfl, mapSet_same _ _ _, mapSet_same _ _ _, ?_, ?_, ?_⟩
  · intro k hk
    exact mapSet_other _ _ _ _ hk
  · intro d hd
    exact mapSet_other _ _ _ _ hd
  · intro d hd
    by_cases h : d = img.Digest
    · subst h
      simp [cacheImpl.Put, mapSet]
    · have := mapSet_other c.imageMap img.Digest d { ContainerImage := img, Time := now } h
      simp only [cacheImpl.Put]
      rw [this]
      exact hd

/-- C9, witness of `cache_put_frame`: a second `Put` under another tag and
digest leaves the alias and the entry of the first in place. -/
theorem cache_put_frame_witness :
    ((NewContainerImageCache.Put (.tag "repo" "v1") (some (imageWithDigest "sha256:aa")) 1).2.Put
        (.tag "repo" "v2") (some (imageWithDigest "sha256:bb")) 2).2.digestMap "repo:v1" =
        some "sha256:aa" ∧
      ((NewContainerImageCache.Put (.tag "repo" "v1") (some (imageWithDigest "sha256:aa")) 1).2.Put
        (.tag "repo" "v2") (some (imageWithDigest "sha256:bb")) 2).2.imageMap "sha256:aa" =
        some { ContainerImage := imageWithDigest "sha256:aa", Time := 1 } ∧
      (((NewContainerImageCache.Put (.tag "repo" "v1") (some (imageWithDigest "sha256:aa")) 1).2.Put
        (.tag "repo" "v2") (some (imageWithDigest "sha256:bb")) 2).2.imageMap
          "sha256:aa").isSome = true :=
  have h := cache_put_frame
    (NewContainerImageCache.Put (.tag "repo" "v1") (some (imageWithDigest "sha256:aa")) 1).2
    (.tag "repo" "v2") (imageWithDigest "sha256:bb") 2
  ⟨(h.2.2.2.1 "repo:v1" (by decide)).trans (by decide),
    (h.2.2.2.2.1 "sha256:aa" (by decide)).trans (by decide),
    h.2.2.2.2.2 "sha256:aa" (by decide)⟩

/-! ## Theorems: jitter and the configured duration -/

theorem wrap64_of_range (x : Int) (h1 : -(2 ^ 63) ≤ x) (h2 : x < 2 ^ 63) : wrap64 x = x := by
  unfold wrap64
  have h : (x + 2 ^ 63) % 2 ^ 64 = x + 2 ^ 63 :=
    Int.emod_eq_of_lt (by omega) (by omega)
  omega

theorem addJitter_pos (d : Int) (raw : Nat) (h6 : 6 ≤ d) :
    addJitter d raw = .ret (wrap64 (d + (raw : Int) % (d / 6))) := by
  have hdiv : Int.tdiv d 6 = d / 6 := Int.tdiv_eq_ediv (by omega) (by omega)
  have hpos : ¬ d ≤ 0 := by omega
  have hq : ¬ d / 6 ≤ 0 := by omega
  simp [addJitter, Int63n, Outcome.bind, hdiv, hpos, hq]

theorem addJitter_small (d : Int) (raw : Nat) (h0 : 0 < d) (h6 : d < 6) :
    addJitter d raw = .panic "invalid argument to Int63n" := by
  have hdiv : Int.tdiv d 6 = d / 6 := Int.tdiv_eq_ediv (by omega) (by omega)
  have hpos : ¬ d ≤ 0 := by omega
  have hq : d / 6 ≤ 0 := by omega
  simp [addJitter, Int63n, Outcome.bind, hdiv, hpos, hq]

theorem addJitter_in_range (d : Int) (raw : Nat) (h6 : 6 ≤ d) (hmax : d + d / 6 ≤ 2 ^ 63) :
    ∃ r, addJitter d raw = .ret r ∧ d ≤ r ∧ r < d + d / 6 := by
  have hq : 0 < d / 6 := by omega
  have hlo : 0 ≤ (raw : Int) % (d / 6) := Int.emod_nonneg _ (by omega)
  have hhi : (raw : Int) % (d / 6) < d / 6 := Int.emod_lt_of_pos _ hq
  refine ⟨d + (raw : Int) % (d / 6), ?_, by omega, by omega⟩
  rw [addJitter_pos d raw h6, wrap64_of_range _ (by omega) (by omega)]

/-- C3 (as amended): for every duration `d` of at least 6 nanoseconds with
`d + d/6` within the range of `int64`, and every outcome of the random source,
`addJitter(d)` returns a delay `r` with `d <= r < d + d/6`; for `d = 600s` the
delay is in `[600s, 700s)`. -/
theorem addJitter_bounds (d : Int) (raw : Nat) (h6 : 6 ≤ d) (hmax : d + d / 6 ≤ 2 ^ 63) :
    (∃ r, addJitter d raw = .ret r ∧ d ≤ r ∧ r < d + d / 6) ∧
      (∃ r, addJitter 600000000000 raw = .ret r ∧ 600000000000 ≤ r ∧ r < 700000000000) := by
  refine ⟨addJitter_in_range d raw h6 hmax, ?_⟩
  obtain ⟨r, hr, hlo, hhi⟩ :=
    addJitter_in_range 600000000000 raw (by norm_num) (by norm_num)
  exact ⟨r, hr, hlo, by omega⟩

/-- C3, witness of `addJitter_bounds` at `d = 60` nanoseconds. -/
theorem addJitter_bounds_witness :
    (∃ r, addJitter 60 7 = .ret r ∧ (60 : Int) ≤ r ∧ r < 60 + 60 / 6) ∧
      (∃ r, addJitter 600000000000 7 = .ret r ∧ 600000000000 ≤ r ∧ r < 700000000000) :=
  addJitter_bounds 60 7 (by decide) (by decide)

/-- C3, counterexample to the claim as stated: for the positive duration of 5
nanoseconds `addJitter` does not return (`rand.Int63n(0)` panics), and for the
largest `int64` duration the sum wraps to a negative delay. -/
theorem addJitter_bounds_counterexample :
    (¬ ∃ r, addJitter 5 0 = .ret r ∧ (5 : Int) ≤ r ∧ r < 5 + 5 / 6) ∧
      addJitter 5 0 = .panic "invalid argument to Int63n" ∧
      addJitter 9223372036854775807 1537228672809129300 = .ret (-7686143364045646509) := by
  refine ⟨?_, addJitter_small 5 0 (by decide) (by decide), ?_⟩
  · rintro ⟨r, _, h1, h2⟩
    omega
  · rw [addJitter_pos _ _ (by norm_num)]
    norm_num [wrap64]

theorem setupReconcilers_ok (o : options) (rs : List GroupVersionKind) :
    setupReconcilers o (fun _ => none) rs =
      .ok (rs.map fun g =>
        { GroupVersionKind := g, CacheDuration := o.cacheDuration, Platform := o.platform }) := by
  induction rs with
  | nil => rfl
  | cons g rest ih => simp [setupReconcilers, ih]

/-- C4 (as amended): for every `d <= 0` the option `WithCacheDuration(d)`
leaves the options unchanged, so `SetupControllers` (its collaborators
succeeding) gives every reconciler the default duration of one hour, and the
next-reconcile delay `addJitter` of that duration is one hour plus a jitter
below ten minutes. -/
theorem nonpositive_cacheDuration_keeps_default (d : Int) (p : Option Platform) (raw : Nat)
    (hd : d ≤ 0) :
    (∀ o : options, WithCacheDuration d o = o) ∧
      SetupControllers none (fun _ => none) [WithCacheDuration d, WithPlatform p] =
        .ok (resources.map fun g =>
          { GroupVersionKind := g, CacheDuration := Hour, Platform := p }) ∧
      (∃ r, addJitter Hour raw = .ret r ∧ Hour ≤ r ∧ r < Hour + 600000000000) := by
  refine ⟨fun o => by simp [WithCacheDuration, hd], ?_, ?_⟩
  · simp only [SetupControllers, setupReconcilers_ok]
    simp [setupOptions, WithCacheDuration, WithPlatform, hd]
  · obtain ⟨r, hr, hlo, hhi⟩ :=
      addJitter_in_range Hour raw (by norm_num [Hour]) (by norm_num [Hour])
    refine ⟨r, hr, hlo, ?_⟩
    have : Hour / 6 = 600000000000 := by norm_num [Hour]
    omega

/-- C4, witness of `nonpositive_cacheDuration_keeps_default` at `d = 0`. -/
theorem nonpositive_cacheDuration_keeps_default_witness :
    (∀ o : options, WithCacheDuration 0 o = o) ∧
      SetupControllers none (fun _ => none) [WithCacheDuration 0, WithPlatform none] =
        .ok (resources.map fun g =>
          { GroupVersionKind := g, CacheDuration := Hour, Platform := none }) ∧
      (∃ r, addJitter Hour 1 = .ret r ∧ Hour ≤ r ∧ r < Hour + 600000000000) :=
  nonpositive_cacheDuration_keeps_default 0 none 1 (by decide)

/-- C4, counterexample to the claim as stated: with `WithCacheDuration(0)` the
duration that `SetupControllers` hands to the reconcilers is one hour, which
is positive, and `addJitter` adds a jitter to it. -/
theorem nonpositive_cacheDuration_counterexample :
    (setupOptions [WithCacheDuration 0]).cacheDuration = 3600000000000 ∧
      ¬ (setupOptions [WithCacheDuration 0]).cacheDuration ≤ 0 ∧
      SetupControllers none (fun _ => none) [WithCacheDuration 0] =
        .ok (resources.map fun g =>
          { GroupVersionKind := g, CacheDuration := 3600000000000, Platform := none }) ∧
      addJitter (setupOptions [WithCacheDuration 0]).cacheDuration 1 = .ret 3600000000001 := by
  have h : (setupOptions [WithCacheDuration 0]).cacheDuration = 3600000000000 := by
    simp [setupOptions, WithCacheDuration, Hour]
  refine ⟨h, by rw [h]; norm_num, ?_, ?_⟩
  · simp only [SetupControllers, setupReconcilers_ok]
    simp [setupOptions, WithCacheDuration, Hour]
  · rw [h, addJitter_pos _ _ (by norm_num)]
    norm_num [wrap64]

/-! ## Theorems: the resolver -/

theorem cacheLookup_expired (r : ContainerImageReconciler) (c : cacheImpl) (now : Int)
    (ref : Reference) (cimg : CachedContainerImage) (hg : c.Get ref = .ok cimg)
    (hexp : cimg.Time + r.CacheDuration ≤ now) :
    cacheLookup r c now ref = some (.error (.wrapNil "fetching image details from cache")) := by
  have hlt : ¬ now < cimg.Time + r.CacheDuration := by omega
  simp [cacheLookup, hg, hlt, errorsIsNotFound, Errorf]

theorem getImage_expired_entry (r : ContainerImageReconciler) (reg : Registry) (c : cacheImpl)
    (now putNow : Int) (imgRef : String) (ref : Reference) (cimg : CachedContainerImage)
    (hp : reg.ParseReference imgRef = .ok ref) (hg : c.Get ref = .ok cimg)
    (hexp : cimg.Time + r.CacheDuration ≤ now) :
    r.getImage reg (some c) now putNow imgRef =
      .ret (.error (.wrapNil "fetching image details from cache"), some c) := by
  simp [ContainerImageReconciler.getImage, hp, cacheLookup_expired r c now ref cimg hg hexp]

/-- C1, the code at the failing input: the cache holds `repo:v1`, stored at
time 0, the duration is 10 and the clock reads 10, so the entry has expired.
The resolver returns the error `fetching image details from cache` wrapping
the nil error and leaves the cache as it was, although the registry answers
the reference and the fetch that was skipped would have returned the image
with digest `sha256:bb`. -/
theorem getImage_expired_entry_fails :
    demoCache.Get (.tag "repo" "v1") =
        .ok { ContainerImage := imageWithDigest "sha256:aa", Time := 0 } ∧
      demoReconciler.getImage demoRegistry (some demoCache) 10 10 "repo:v1" =
        .ret (.error (.wrapNil "fetching image details from cache"), some demoCache) ∧
      ∃ c', fetchAndCache demoReconciler demoRegistry (some demoCache) 10 (.tag "repo" "v1") =
        .ret (.ok
          { Digest := "sha256:bb", Annotations := [], Labels := [("maintainer", "dev")],
            Size := 60, Created := 5000000000 }, some c') := by
  have hg : demoCache.Get (.tag "repo" "v1") =
      .ok { ContainerImage := imageWithDigest "sha256:aa", Time := 0 } := by decide
  refine ⟨hg, ?_, ?_⟩
  · exact getImage_expired_entry demoReconciler demoRegistry demoCache 10 10 "repo:v1"
      (.tag "repo" "v1") _ (by decide) hg (by decide)
  · refine ⟨(demoCache.Put (.tag "repo" "v1")
      (some { Digest := "sha256:bb", Annotations := [], Labels := [("maintainer", "dev")],
              Size := 60, Created := 5000000000 }) 10).2, ?_⟩
    simp [fetchAndCache, demoRegistry, demoDescriptor, getImage, OCIImageIndex,
      DockerManifestList, Outcome.bind, demoImage, imageSize, wrap64, cacheImpl.Put]

/-! ## Theorems: selection from a multi-architecture index -/

theorem scanManifests_of_platforms (p : Platform) (ms : List v1Descriptor)
    (h : ∀ m ∈ ms, m.Platform ≠ none) :
    scanManifests p ms = .ret (ms.find? (matchesPlatform p)) := by
  induction ms with
  | nil => rfl
  | cons m rest ih =>
    have hm : m.Platform ≠ none := h m (List.mem_cons_self _ _)
    have hrest : ∀ m' ∈ rest, m'.Platform ≠ none := fun m' hm' =>
      h m' (List.mem_cons_of_mem _ hm')
    cases hp : m.Platform with
    | none => exact absurd hp hm
    | some mp =>
      by_cases heq : mp.Equals p = true
      · simp [scanManifests, hp, heq, List.find?, matchesPlatform]
      · simp [scanManifests, hp, heq, List.find?, matchesPlatform, ih hrest]

/-- Selection on an index all of whose children carry a platform: the first
child in list order whose platform equals the preference, and the first child
of the list when there is none or no preference is configured. -/
theorem selectManifest_of_platforms (platform : Option Platform) (first : v1Descriptor)
    (rest : List v1Descriptor) (h : ∀ m ∈ first :: rest, m.Platform ≠ none) :
    selectManifest platform first rest =
      .ret (match platform with
        | some p => ((first :: rest).find? (matchesPlatform p)).getD first
        | none => first) := by
  cases platform with
  | none => rfl
  | some p =>
    simp only [selectManifest, scanManifests_of_platforms p (first :: rest) h, Outcome.bind]
    cases (first :: rest).find? (matchesPlatform p) <;> rfl

/-- The example of the specification: for the children `[A(arm64), B(amd64)]`
the preference `amd64` selects `B` and no preference selects `A`. -/
theorem selectManifest_example :
    selectManifest (some (linuxPlatform "amd64"))
        { Digest := "sha256:a", Platform := some (linuxPlatform "arm64") }
        [{ Digest := "sha256:b", Platform := some (linuxPlatform "amd64") }] =
        .ret { Digest := "sha256:b", Platform := some (linuxPlatform "amd64") } ∧
      selectManifest none
        { Digest := "sha256:a", Platform := some (linuxPlatform "arm64") }
        [{ Digest := "sha256:b", Platform := some (linuxPlatform "amd64") }] =
        .ret { Digest := "sha256:a", Platform := some (linuxPlatform "arm64") } := by
  decide

/-- C10, the code at the failing input: the index has the children
`[X (no platform), B (linux/amd64)]` and the preference is `linux/amd64`.
The claim selects `B`, the first child whose platform equals the preference;
the loop of `getImage` dereferences the nil platform of `X` and panics, so
neither the selection nor `getImage` returns. -/
theorem getImage_nil_platform_panics :
    selectManifest (some (linuxPlatform "amd64"))
        { Digest := "sha256:x", Platform := none }
        [{ Digest := "sha256:b", Platform := some (linuxPlatform "amd64") }] =
        .panic "invalid memory address or nil pointer dereference" ∧
      getImage
        (demoIndex [{ Digest := "sha256:x", Platform := none },
          { Digest := "sha256:b", Platform := some (linuxPlatform "amd64") }])
        (some (linuxPlatform "amd64")) =
        .panic "invalid memory address or nil pointer dereference" := by
  constructor
  · decide
  · decide

/-! ## Theorems: the scrape -/

theorem collectResources_stop (e : Exporter) (k : GroupVersionKind) (err : Error)
    (hfail : e.clientList k = .error err) (post : List GroupVersionKind) :
    ∀ (pre : List GroupVersionKind) (digests : List String),
      collectResources e (pre ++ k :: post) digests = collectResources e pre digests := by
  intro pre
  induction pre with
  | nil =>
    intro digests
    simp [collectResources, hfail]
  | cons g rest ih =>
    intro digests
    cases hg : e.clientList g with
    | error e' => simp [collectResources, hg]
    | ok items => simp [collectResources, hg, ih]

theorem take_append_get_drop {α : Type} (l : List α) (i : Nat) (a : α)
    (h : l.get? i = some a) : l = l.take i ++ a :: l.drop (i + 1) := by
  induction l generalizing i with
  | nil => simp at h
  | cons x xs ih =>
    cases i with
    | zero =>
      simp at h
      simp [h]
    | succ j =>
      simp at h
      simpa using ih j (by simpa using h)

/-- C2 (as amended): in a scrape in which listing the objects of the kind at
position `i` of `resources` fails, the metrics sent are exactly those of a
scrape of the kinds before position `i`: nothing is sent for the failing kind
or for any kind after it, and what was sent for the kinds listed before it
stays sent. -/
theorem collect_stops_at_failing_list (e : Exporter) (i : Nat) (k : GroupVersionKind)
    (err : Error) (hk : resources.get? i = some k) (hfail : e.clientList k = .error err) :
    e.Collect = collectResources e (resources.take i) [] := by
  unfold Exporter.Collect
  conv_lhs => rw [take_append_get_drop resources i k hk]
  exact collectResources_stop e k err hfail _ _ _

/-- C2, witness of `collect_stops_at_failing_list`: the listing of deployments
(position 1) fails after the pods were listed. -/
theorem collect_stops_at_failing_list_witness :
    demoExporter.Collect = collectResources demoExporter (resources.take 1) [] :=
  collect_stops_at_failing_list demoExporter 1
    { Group := "apps", Version := "v1", Kind := "Deployment" }
    (.external "the server is unavailable") (by decide) (by simp [demoExporter])

/-- C2, counterexample to the claim as stated: the listing of pods succeeds
with one pod of one container and the listing of deployments fails; the
scrape has by then sent the info metric of that container and the size and
created metrics of its image. -/
theorem collect_partial_emission_counterexample :
    demoExporter.clientList { Group := "apps", Version := "v1", Kind := "Deployment" } =
        .error (.external "the server is unavailable") ∧
      demoExporter.Collect.map (fun m => (m.desc.fqName, m.value)) =
        [("container_image_container_info", 1), ("container_image_size_bytes", 0),
          ("container_image_created", 0)] ∧
      demoExporter.Collect ≠ [] := by
  have h : demoExporter.Collect.map (fun m => (m.desc.fqName, m.value)) =
      [("container_image_container_info", 1), ("container_image_size_bytes", 0),
        ("container_image_created", 0)] := by decide
  refine ⟨by simp [demoExporter], h, ?_⟩
  intro hnil
  rw [hnil] at h
  cases h

/-! ## Theorems: non-positive duration, cache hit, metric names -/

/-- C16: for every duration `d <= 0`, `addJitter(d)` returns exactly `d`,
whatever the outcome of the random source is. -/
theorem addJitter_nonpositive (d : Int) (raw raw' : Nat) (hd : d ≤ 0) :
    addJitter d raw = .ret d ∧ addJitter d raw' = addJitter d raw := by
  simp [addJitter, hd]

/-- C16, witness of `addJitter_nonpositive` at `d = -5`. -/
theorem addJitter_nonpositive_witness :
    addJitter (-5) 3 = .ret (-5) ∧ addJitter (-5) 8 = addJitter (-5) 3 :=
  addJitter_nonpositive (-5) 3 8 (by decide)

theorem cacheLookup_fresh (r : ContainerImageReconciler) (c : cacheImpl) (now : Int)
    (ref : Reference) (cimg : CachedContainerImage) (hg : c.Get ref = .ok cimg)
    (hfresh : now < cimg.Time + r.CacheDuration) :
    cacheLookup r c now ref = some (.ok cimg.ContainerImage) := by
  simp [cacheLookup, hg, hfresh]

/-- C15: when the reference parses and the cache holds an entry for it with
`now < fetchedAt + ttl`, the resolver returns exactly the cached image and
leaves the cache as it was, and it does so whatever `remote.Get` would answer
(the registry is not consulted). -/
theorem getImage_cache_hit (r : ContainerImageReconciler) (reg : Registry) (c : cacheImpl)
    (now putNow : Int) (imgRef : String) (ref : Reference) (cimg : CachedContainerImage)
    (hp : reg.ParseReference imgRef = .ok ref) (hg : c.Get ref = .ok cimg)
    (hfresh : now < cimg.Time + r.CacheDuration) :
    r.getImage reg (some c) now putNow imgRef = .ret (.ok cimg.ContainerImage, some c) ∧
      ∀ remoteGet' : Reference → Except Error remoteDescriptor,
        r.getImage { ParseReference := reg.ParseReference, remoteGet := remoteGet' } (some c)
          now putNow imgRef = .ret (.ok cimg.ContainerImage, some c) := by
  constructor
  · simp [ContainerImageReconciler.getImage, hp, cacheLookup_fresh r c now ref cimg hg hfresh]
  · intro remoteGet'
    simp [ContainerImageReconciler.getImage, hp, cacheLookup_fresh r c now ref cimg hg hfresh]

/-- C15, witness of `getImage_cache_hit`: the entry stored at time 0 is read at
time 9 with a duration of 10. -/
theorem getImage_cache_hit_witness :
    demoReconciler.getImage demoRegistry (some demoCache) 9 9 "repo:v1" =
        .ret (.ok (imageWithDigest "sha256:aa"), some demoCache) ∧
      ∀ remoteGet' : Reference → Except Error remoteDescriptor,
        demoReconciler.getImage
          { ParseReference := demoRegistry.ParseReference, remoteGet := remoteGet' }
          (some demoCache) 9 9 "repo:v1" =
          .ret (.ok (imageWithDigest "sha256:aa"), some demoCache) :=
  getImage_cache_hit demoReconciler demoRegistry demoCache 9 9 "repo:v1" (.tag "repo" "v1")
    { ContainerImage := imageWithDigest "sha256:aa", Time := 0 } (by decide) (by decide)
    (by decide)

/-- C18 (as amended): the fully qualified names of the five metric families
described by the exporter are `container_image_container_info`,
`container_image_annotation`, `container_image_label`,
`container_image_size_bytes` and `container_image_created`. -/
theorem metric_names :
    Exporter.Describe.map (fun d => d.fqName) =
      ["container_image_container_info", "container_image_annotation",
        "container_image_label", "container_image_size_bytes", "container_image_created"] := by
  decide

/-- C18, counterexample to the claim as stated: the name of the info family is
not `container_info`, and no family described by the exporter has that name. -/
theorem metric_names_counterexample :
    metricContainerInfo.fqName ≠ "container_info" ∧
      "container_info" ∉ Exporter.Describe.map (fun d => d.fqName) := by
  decide

/-! ## Theorems: the invariant of the cache -/

theorem Invariant_empty : NewContainerImageCache.Invariant := by
  constructor
  · intro d e h
    simp [NewContainerImageCache] at h
  · intro k d h
    simp [NewContainerImageCache] at h

theorem Invariant_call (c : cacheImpl) (call : CacheCall) (h : c.Invariant) :
    (c.call call).Invariant := by
  cases call with
  | Get ref => exact h
  | Put ref img now =>
    cases img with
    | none => exact h
    | some i =>
      obtain ⟨h1, h2⟩ := h
      constructor
      · intro d e he
        simp only [cacheImpl.call, cacheImpl.Put, mapSet] at he
        by_cases hd : d = i.Digest
        · simp only [hd, if_true, Option.some.injEq] at he
          rw [← he, hd]
        · simp only [hd, if_false] at he
          exact h1 d e he
      · intro k d hk
        simp only [cacheImpl.call, cacheImpl.Put, mapSet] at hk ⊢
        by_cases hd : d = i.Digest
        · simp [hd]
        · simp only [hd, if_false]
          by_cases hkk : k = ref.String
          · simp only [hkk, if_true, Option.some.injEq] at hk
            exact absurd hk.symm hd
          · simp only [hkk, if_false] at hk
            exact h2 k d hk

theorem Invariant_run (calls : List CacheCall) :
    ∀ c : cacheImpl, c.Invariant → (c.run calls).Invariant := by
  induction calls with
  | nil => intro c h; exact h
  | cons call rest ih =>
    intro c h
    exact ih (c.call call) (Invariant_call c call h)

/-- C20: in every state reached from the empty cache by a sequence of `Put`
and `Get` calls, every entry of the metadata table under key `d` holds an
image whose `Digest` is `d`, every digest the alias table maps a reference to
is a key of the metadata table, and `Get` of a tag reference whose alias is a
non-empty digest returns an entry. -/
theorem reachable_cache_invariant (calls : List CacheCall) :
    (∀ d e, (NewContainerImageCache.run calls).imageMap d = some e →
        e.ContainerImage.Digest = d) ∧
      (∀ k d, (NewContainerImageCache.run calls).digestMap k = some d →
        ((NewContainerImageCache.run calls).imageMap d).isSome = true) ∧
      (∀ repo tagStr d,
        (NewContainerImageCache.run calls).digestMap (Reference.tag repo tagStr).String = some d →
        d ≠ "" →
        ∃ e, (NewContainerImageCache.run calls).Get (.tag repo tagStr) = .ok e ∧
          e.ContainerImage.Digest = d) := by
  obtain ⟨h1, h2⟩ := Invariant_run calls NewContainerImageCache Invariant_empty
  refine ⟨h1, h2, ?_⟩
  intro repo tagStr d hd hne
  have hsome := h2 _ d hd
  obtain ⟨e, he⟩ := Option.isSome_iff_exists.mp hsome
  refine ⟨e, ?_, h1 d e he⟩
  rw [Get_tag_eq]
  simp [hd, hne, he]

/-- C20, witness of `reachable_cache_invariant`: after two `Put` calls and a
`Get`, the tag `repo:v1` has an alias to `sha256:aa` and `Get` returns an
entry with that digest. -/
theorem reachable_cache_invariant_witness :
    ∃ e,
      (NewContainerImageCache.run
        [.Put (.tag "repo" "v1") (some (imageWithDigest "sha256:aa")) 1,
          .Get (.tag "repo" "v2"),
          .Put (.tag "repo" "v2") (some (imageWithDigest "sha256:bb")) 2]).Get
        (.tag "repo" "v1") = .ok e ∧ e.ContainerImage.Digest = "sha256:aa" :=
  (reachable_cache_invariant
    [.Put (.tag "repo" "v1") (some (imageWithDigest "sha256:aa")) 1,
      .Get (.tag "repo" "v2"),
      .Put (.tag "repo" "v2") (some (imageWithDigest "sha256:bb")) 2]).2.2
    "repo" "v1" "sha256:aa" (by decide) (by decide)

/-! ## Theorems: extraction of container specs -/

theorem NestedFieldNoCopy_of_lookupPath (path : List String) :
    ∀ v : Value,
      (∀ x, lookupPath v path = some x → NestedFieldNoCopy v path = (some x, true, none)) ∧
      (lookupPath v path = none → (NestedFieldNoCopy v path).2.1 = false) := by
  induction path with
  | nil =>
    intro v
    constructor
    · intro x hx
      cases v <;> simp_all [lookupPath, NestedFieldNoCopy]
    · intro hx
      cases v <;> simp [lookupPath] at hx
  | cons key rest ih =>
    intro v
    cases v with
    | obj m =>
      cases hm : m.lookup key with
      | none => simp [lookupPath, NestedFieldNoCopy, hm]
      | some w =>
        simp only [lookupPath, NestedFieldNoCopy, hm]
        exact ih w
    | null => simp [lookupPath, NestedFieldNoCopy]
    | bool b => simp [lookupPath, NestedFieldNoCopy]
    | num n => simp [lookupPath, NestedFieldNoCopy]
    | str t => simp [lookupPath, NestedFieldNoCopy]
    | arr xs => simp [lookupPath, NestedFieldNoCopy]

theorem NestedSlice_eq_arrayAt (obj : Value) (path : List String) :
    (NestedSlice obj path).1 = arrayAt obj path := by
  obtain ⟨h1, h2⟩ := NestedFieldNoCopy_of_lookupPath path obj
  cases hl : lookupPath obj path with
  | none =>
    have hf := h2 hl
    unfold NestedSlice arrayAt
    rw [hl]
    rcases hn : NestedFieldNoCopy obj path with ⟨val, found, err⟩
    rw [hn] at hf
    simp only at hf
    subst hf
    simp
  | some x =>
    have hn := h1 x hl
    unfold NestedSlice arrayAt
    rw [hl, hn]
    cases x <;> simp

theorem containerSpecsLoop_eq (path : List String) (xs : List Value) :
    ∀ i : Nat, containerSpecsLoop path i xs = (xs.enumFrom i).filterMap (entrySpec path) := by
  induction xs with
  | nil => intro i; rfl
  | cons x rest ih =>
    intro i
    rw [List.enumFrom_cons, List.filterMap_cons]
    cases x with
    | obj data =>
      cases hn : data.lookup "name" with
      | none => simp [containerSpecsLoop, entrySpec, wellFormedEntry, hn, ih]
      | some nv =>
        cases nv with
        | str name =>
          cases hi : data.lookup "image" with
          | none => simp [containerSpecsLoop, entrySpec, wellFormedEntry, hn, hi, ih]
          | some iv =>
            cases iv <;> simp [containerSpecsLoop, entrySpec, wellFormedEntry, hn, hi, ih]
        | null => simp [containerSpecsLoop, entrySpec, wellFormedEntry, hn, ih]
        | bool b => simp [containerSpecsLoop, entrySpec, wellFormedEntry, hn, ih]
        | num n => simp [containerSpecsLoop, entrySpec, wellFormedEntry, hn, ih]
        | arr ys => simp [containerSpecsLoop, entrySpec, wellFormedEntry, hn, ih]
        | obj ys => simp [containerSpecsLoop, entrySpec, wellFormedEntry, hn, ih]
    | null => simp [containerSpecsLoop, entrySpec, wellFormedEntry, ih]
    | bool b => simp [containerSpecsLoop, entrySpec, wellFormedEntry, ih]
    | num n => simp [containerSpecsLoop, entrySpec, wellFormedEntry, ih]
    | str t => simp [containerSpecsLoop, entrySpec, wellFormedEntry, ih]
    | arr ys => simp [containerSpecsLoop, entrySpec, wellFormedEntry, ih]

theorem containerSpecsPaths_eq (obj : Value) (paths : List (List String)) :
    containerSpecsPaths obj paths =
      paths.flatMap fun path => (arrayAt obj path).enum.filterMap (entrySpec path) := by
  induction paths with
  | nil => rfl
  | cons path rest ih =>
    simp only [containerSpecsPaths, List.flatMap_cons, ih, containerSpecsLoop_eq,
      NestedSlice_eq_arrayAt, List.enum]

/-- C13: for every object, `containerSpecs` returns exactly the well-formed
entries (a map with a string `name` and a string `image`) of the arrays at
the seven known paths, by path order and then by array order; entries that
are not well-formed are left out without effect on the others, and an absent
path contributes nothing. -/
theorem containerSpecs_refines_spec (obj : Value) :
    containerSpecs obj = containerSpecsSpec obj ∧ containerPaths.length = 7 := by
  exact ⟨containerSpecsPaths_eq obj containerPaths, rfl⟩

theorem mem_containerSpecsLoop (path : List String) (spec : ContainerSpec) (xs : List Value) :
    ∀ i : Nat, spec ∈ containerSpecsLoop path i xs →
      ∃ j data, xs.get? j = some (.obj data) ∧
        data.lookup "name" = some (.str spec.Name) ∧
        data.lookup "image" = some (.str spec.Image) ∧
        spec.JSONPath = jsonPath path (i + j) := by
  induction xs with
  | nil =>
    intro i h
    simp [containerSpecsLoop] at h
  | cons x rest ih =>
    intro i h
    have hrest : spec ∈ containerSpecsLoop path (i + 1) rest →
        ∃ j data, (x :: rest).get? j = some (.obj data) ∧
          data.lookup "name" = some (.str spec.Name) ∧
          data.lookup "image" = some (.str spec.Image) ∧
          spec.JSONPath = jsonPath path (i + j) := by
      intro h'
      obtain ⟨j, data, h1, h2, h3, h4⟩ := ih (i + 1) h'
      refine ⟨j + 1, data, by simpa using h1, h2, h3, ?_⟩
      rw [h4]
      congr 1
      omega
    rw [containerSpecsLoop_eq, List.enumFrom_cons, List.filterMap_cons] at h
    cases hx : entrySpec path (i, x) with
    | none =>
      rw [hx] at h
      rw [← containerSpecsLoop_eq] at h
      exact hrest h
    | some sp =>
      rw [hx] at h
      rw [← containerSpecsLoop_eq] at h
      rcases List.mem_cons.mp h with heq | h'
      · subst heq
        cases x with
        | obj data =>
          refine ⟨0, data, rfl, ?_⟩
          simp only [entrySpec, wellFormedEntry] at hx
          cases hn : data.lookup "name" with
          | none => simp [hn] at hx
          | some nv =>
            cases hi : data.lookup "image" with
            | none =>
              cases nv <;> simp [hn, hi] at hx
            | some iv =>
              cases nv <;> cases iv <;> simp [hn, hi] at hx
              subst hx
              simp
        | null => simp [entrySpec, wellFormedEntry] at hx
        | bool b => simp [entrySpec, wellFormedEntry] at hx
        | num n => simp [entrySpec, wellFormedEntry] at hx
        | str t => simp [entrySpec, wellFormedEntry] at hx
        | arr ys => simp [entrySpec, wellFormedEntry] at hx
      · exact hrest h'

theorem mem_containerSpecsPaths (obj : Value) (spec : ContainerSpec)
    (paths : List (List String)) (h : spec ∈ containerSpecsPaths obj paths) :
    ∃ path ∈ paths, spec ∈ containerSpecsLoop path 0 (NestedSlice obj path).1 := by
  induction paths with
  | nil => simp [containerSpecsPaths] at h
  | cons path rest ih =>
    simp only [containerSpecsPaths, List.mem_append] at h
    rcases h with h | h
    · exact ⟨path, List.mem_cons_self _ _, h⟩
    · obtain ⟨p', hp', hs⟩ := ih h
      exact ⟨p', List.mem_cons_of_mem _ hp', hs⟩

/-- C19: every spec returned by `containerSpecs` comes from one of the known
paths and one index `i` of the array found there: its locator is `{.` followed
by the path segments joined by `.` and `[i]}`, and the entry at index `i` of
that array, malformed siblings counted, is a map whose `name` and `image` are
the name and image of the spec. -/
theorem containerSpecs_locator (obj : Value) (spec : ContainerSpec)
    (h : spec ∈ containerSpecs obj) :
    ∃ path ∈ containerPaths, ∃ i data,
      (NestedSlice obj path).1.get? i = some (.obj data) ∧
        data.lookup "name" = some (.str spec.Name) ∧
        data.lookup "image" = some (.str spec.Image) ∧
        spec.JSONPath = "\x7b." ++ ".".intercalate path ++ "[" ++ toString i ++ "]\x7d" := by
  obtain ⟨path, hp, hs⟩ := mem_containerSpecsPaths obj spec containerPaths h
  obtain ⟨j, data, h1, h2, h3, h4⟩ := mem_containerSpecsLoop path spec _ 0 hs
  refine ⟨path, hp, j, data, h1, h2, h3, ?_⟩
  rw [h4, Nat.zero_add]
  rfl

/-- C19, witness of `containerSpecs_locator`: the container `app` follows an
entry without `image` in `spec.containers`; its locator carries index 1. -/
theorem containerSpecs_locator_witness :
    ∃ path ∈ containerPaths, ∃ i data,
      (NestedSlice demoPodMalformed path).1.get? i = some (.obj data) ∧
        data.lookup "name" = some (.str "app") ∧
        data.lookup "image" = some (.str "repo:v1") ∧
        jsonPath ["spec", "containers"] 1 =
          "\x7b." ++ ".".intercalate path ++ "[" ++ toString i ++ "]\x7d" :=
  containerSpecs_locator demoPodMalformed
    { JSONPath := jsonPath ["spec", "containers"] 1, Name := "app", Image := "repo:v1" }
    (by
      simp [containerSpecs, containerSpecsPaths, containerPaths, demoPodMalformed, NestedSlice,
        NestedFieldNoCopy, containerSpecsLoop, List.lookup])

theorem containerSpecs_demoPodMalformed :
    containerSpecs demoPodMalformed =
      [{ JSONPath := jsonPath ["spec", "containers"] 1, Name := "app", Image := "repo:v1" }] := by
  simp [containerSpecs, containerSpecsPaths, containerPaths, demoPodMalformed, NestedSlice,
    NestedFieldNoCopy, containerSpecsLoop, List.lookup]

/-! ## Theorems: the reconcile loop -/

theorem reconcileLoop_facts {σ : Type}
    (resolve : σ → String → Outcome (Except Error ContainerImage × σ))
    (cs : List ContainerSpec) :
    ∀ (s : σ) (R : LoopResult σ), reconcileLoop resolve cs s = .ret R →
      LoopFacts resolve cs R := by
  induction cs with
  | nil =>
    intro s R h
    simp only [reconcileLoop, Outcome.ret.injEq] at h
    subst h
    simp [LoopFacts]
  | cons c rest ih =>
    intro s R h
    simp only [reconcileLoop] at h
    cases hres : resolve s c.Image with
    | panic m => simp [hres, Outcome.bind] at h
    | ret out =>
      obtain ⟨res, s'⟩ := out
      simp only [hres, Outcome.bind] at h
      cases res with
      | error err =>
        simp only [Outcome.ret.injEq] at h
        subst h
        refine ⟨by simp, ?_, ?_, ?_⟩
        · intro k c' res' hk
          cases k with
          | zero =>
            simp at hk
            obtain ⟨h1, h2⟩ := hk
            subst h1 h2
            exact ⟨s, s', hres⟩
          | succ k => simp at hk
        · intro k c' e0 hk
          cases k with
          | zero =>
            simp at hk
            obtain ⟨_, h2⟩ := hk
            subst h2
            simp [Errorf]
          | succ k => simp at hk
        · intro hnone
          simp at hnone
      | ok img =>
        simp only at h
        cases hrest : reconcileLoop resolve rest s' with
        | panic m => simp [hrest, Outcome.bind] at h
        | ret R' =>
          simp only [hrest, Outcome.bind, Outcome.ret.injEq] at h
          subst h
          obtain ⟨f1, f2, f3, f4⟩ := ih s' R' hrest
          refine ⟨by simp [f1], ?_, ?_, ?_⟩
          · intro k c' res' hk
            cases k with
            | zero =>
              simp at hk
              obtain ⟨h1, h2⟩ := hk
              subst h1 h2
              exact ⟨s, s', hres⟩
            | succ k => exact f2 k c' res' (by simpa using hk)
          · intro k c' e0 hk
            cases k with
            | zero => simp at hk
            | succ k =>
              obtain ⟨g1, g2⟩ := f3 k c' e0 (by simpa using hk)
              exact ⟨by simp [g1], g2⟩
          · intro hnone
            obtain ⟨g1, g2⟩ := f4 hnone
            refine ⟨by simp [g1], ?_⟩
            intro call hcall
            rcases List.mem_cons.mp hcall with heq | hmem
            · exact ⟨img, by rw [heq]⟩
            · exact g2 call hmem

theorem Reconcile_found (r : ContainerImageReconciler) (cl : Cluster) (reg : Registry)
    (cache : Option cacheImpl) (now putNow : Int) (raw : Nat) (obj : Unstructured)
    (out : ReconcileResult) (hobj : cl.clientGet = .found obj)
    (hkc : cl.k8schainNew obj.Namespace (serviceAccountName obj.Object)
      (imagePullSecrets obj.Object) = none)
    (hret : r.Reconcile cl reg cache now putNow raw = .ret out) :
    ∃ R : LoopResult (Option cacheImpl),
      reconcileLoop (fun c img => r.getImage reg c now putNow img)
        (containerSpecs obj.Object) cache = .ret R ∧
      out.calls = R.calls ∧ out.err = R.err ∧ out.cache = R.state ∧
      (R.err ≠ none → out.result.RequeueAfter = 0) ∧
      (R.err = none → addJitter r.CacheDuration raw = .ret out.result.RequeueAfter) := by
  simp only [ContainerImageReconciler.Reconcile, hobj, hkc] at hret
  cases hloop : reconcileLoop (fun c img => r.getImage reg c now putNow img)
      (containerSpecs obj.Object) cache with
  | panic m => simp [hloop, Outcome.bind] at hret
  | ret R =>
    simp only [hloop, Outcome.bind] at hret
    refine ⟨R, rfl, ?_⟩
    cases herr : R.err with
    | some e =>
      simp only [herr, Outcome.ret.injEq] at hret
      subst hret
      simp
    | none =>
      simp only [herr] at hret
      cases hj : addJitter r.CacheDuration raw with
      | panic m => simp [hj] at hret
      | ret d =>
        simp only [hj, Outcome.ret.injEq] at hret
        subst hret
        simp

theorem reconcileLoop_stops {σ : Type}
    (resolve : σ → String → Outcome (Except Error ContainerImage × σ))
    (c : ContainerSpec) (post : List ContainerSpec) (e0 : Error) (s' : σ)
    (pre : List ContainerSpec) :
    ∀ (s : σ) (Rpre : LoopResult σ), reconcileLoop resolve pre s = .ret Rpre →
      Rpre.err = none → resolve Rpre.state c.Image = .ret (.error e0, s') →
      reconcileLoop resolve (pre ++ c :: post) s =
        .ret { err := some (.wrap "fetching image details" e0), state := s',
               calls := Rpre.calls ++ [(c, .error e0)] } := by
  induction pre with
  | nil =>
    intro s Rpre h hnone hres
    simp only [reconcileLoop, Outcome.ret.injEq] at h
    subst h
    simp only at hres
    simp [reconcileLoop, hres, Outcome.bind, Errorf]
  | cons p rest ih =>
    intro s Rpre h hnone hres
    simp only [reconcileLoop] at h
    cases hp : resolve s p.Image with
    | panic m => simp [hp, Outcome.bind] at h
    | ret out =>
      obtain ⟨res, s1⟩ := out
      simp only [hp, Outcome.bind] at h
      cases res with
      | error err =>
        simp only [Outcome.ret.injEq] at h
        subst h
        simp at hnone
      | ok img =>
        simp only at h
        cases hrest : reconcileLoop resolve rest s1 with
        | panic m => simp [hrest, Outcome.bind] at h
        | ret R' =>
          simp only [hrest, Outcome.bind, Outcome.ret.injEq] at h
          subst h
          simp only at hnone hres
          have := ih s1 R' hrest hnone hres
          simp [reconcileLoop, hp, Outcome.bind, this]

/-- C14: for a found object whose extracted containers are
`pre ++ c :: post`, if the resolver succeeds on every container of `pre` and
returns an error on `c`, then `Reconcile` returns that error, wrapped, with no
requeue delay, having called the resolver on `pre` and `c` and on no container
of `post`.  And whenever `Reconcile` returns, the resolver was called on a
prefix of the extracted containers, a failed call is the last one, and a
return without error, with the jittered duration as requeue delay, happens
only when the resolver was called on every extracted container and succeeded
each time. -/
theorem Reconcile_all_or_nothing (r : ContainerImageReconciler) (cl : Cluster) (reg : Registry)
    (cache : Option cacheImpl) (now putNow : Int) (raw : Nat) (obj : Unstructured)
    (hobj : cl.clientGet = .found obj)
    (hkc : cl.k8schainNew obj.Namespace (serviceAccountName obj.Object)
      (imagePullSecrets obj.Object) = none) :
    (∀ pre c post Rpre e0 s', containerSpecs obj.Object = pre ++ c :: post →
        reconcileLoop (fun s img => r.getImage reg s now putNow img) pre cache = .ret Rpre →
        Rpre.err = none →
        r.getImage reg Rpre.state now putNow c.Image = .ret (.error e0, s') →
        r.Reconcile cl reg cache now putNow raw =
          .ret { result := { RequeueAfter := 0 },
                 err := some (.wrap "fetching image details" e0), cache := s',
                 calls := Rpre.calls ++ [(c, .error e0)] }) ∧
      (∀ out, r.Reconcile cl reg cache now putNow raw = .ret out →
        out.calls.map (fun call => call.1) =
            (containerSpecs obj.Object).take out.calls.length ∧
          (∀ k c res, out.calls.get? k = some (c, res) →
            ∃ s s', r.getImage reg s now putNow c.Image = .ret (res, s')) ∧
          (∀ k c e0, out.calls.get? k = some (c, .error e0) →
            k + 1 = out.calls.length ∧
              out.err = some (.wrap "fetching image details" e0) ∧
              out.result.RequeueAfter = 0) ∧
          (out.err = none →
            out.calls.map (fun call => call.1) = containerSpecs obj.Object ∧
              (∀ call ∈ out.calls, ∃ img, call.2 = .ok img) ∧
              addJitter r.CacheDuration raw = .ret out.result.RequeueAfter)) := by
  constructor
  · intro pre c post Rpre e0 s' hcs hpre hnone hres
    have hloop := reconcileLoop_stops (fun s img => r.getImage reg s now putNow img)
      c post e0 s' pre cache Rpre hpre hnone hres
    simp [ContainerImageReconciler.Reconcile, hobj, hkc, hcs, hloop, Outcome.bind]
  · intro out hret
    obtain ⟨R, hloop, hc, he, _, hz, hj⟩ :=
      Reconcile_found r cl reg cache now putNow raw obj out hobj hkc hret
    obtain ⟨f1, f2, f3, f4⟩ := reconcileLoop_facts _ _ cache R hloop
    rw [hc, he]
    refine ⟨f1, f2, ?_, ?_⟩
    · intro k c e0 hk
      obtain ⟨g1, g2⟩ := f3 k c e0 hk
      exact ⟨g1, g2, hz (by simp [g2])⟩
    · intro hnone
      obtain ⟨g1, g2⟩ := f4 hnone
      exact ⟨g1, g2, hj hnone⟩

theorem Reconcile_demoPodTwo :
    demoReconciler.Reconcile (demoCluster demoPodTwo) demoRegistry (some demoCache) 5 5 0 =
      .ret demoPodTwoResult := by
  simp [ContainerImageReconciler.Reconcile, demoCluster, demoPodTwo, containerSpecs,
    containerSpecsPaths, containerPaths, NestedSlice, NestedFieldNoCopy, containerSpecsLoop,
    List.lookup, reconcileLoop, ContainerImageReconciler.getImage, demoRegistry, cacheLookup,
    demoCache, cacheImpl.Get, cacheImpl.Put, mapSet, NewContainerImageCache, Reference.String,
    demoReconciler, Outcome.bind, Errorf, demoPodTwoResult, imageWithDigest]

/-- C14, witness of `Reconcile_all_or_nothing`: of the three containers of
`demoPodTwo` the first resolves from the cache and the second fails to parse;
`Reconcile` returns that error with no requeue delay after two calls of the
resolver, the third container not being resolved. -/
theorem Reconcile_all_or_nothing_witness :
    demoReconciler.Reconcile (demoCluster demoPodTwo) demoRegistry (some demoCache) 5 5 0 =
      .ret { result := { RequeueAfter := 0 },
             err := some (.wrap "fetching image details"
               (.wrap "parsing image reference" (.external "could not parse reference"))),
             cache := some demoCache,
             calls :=
               [({ JSONPath := jsonPath ["spec", "containers"] 0, Name := "app",
                   Image := "repo:v1" }, .ok (imageWithDigest "sha256:aa"))] ++
               [({ JSONPath := jsonPath ["spec", "containers"] 1, Name := "sidecar",
                   Image := "bad" },
                 .error (.wrap "parsing image reference"
                   (.external "could not parse reference")))] } :=
  (Reconcile_all_or_nothing demoReconciler (demoCluster demoPodTwo) demoRegistry
    (some demoCache) 5 5 0 demoPodTwo rfl rfl).1
    [{ JSONPath := jsonPath ["spec", "containers"] 0, Name := "app", Image := "repo:v1" }]
    { JSONPath := jsonPath ["spec", "containers"] 1, Name := "sidecar", Image := "bad" }
    [{ JSONPath := jsonPath ["spec", "containers"] 2, Name := "late", Image := "repo:v1" }]
    { err := none, state := some demoCache,
      calls := [({ JSONPath := jsonPath ["spec", "containers"] 0, Name := "app",
                   Image := "repo:v1" }, .ok (imageWithDigest "sha256:aa"))] }
    (.wrap "parsing image reference" (.external "could not parse reference"))
    (some demoCache)
    (by
      simp [demoPodTwo, containerSpecs, containerSpecsPaths, containerPaths, NestedSlice,
        NestedFieldNoCopy, containerSpecsLoop, List.lookup])
    (by
      simp [reconcileLoop, ContainerImageReconciler.getImage, demoRegistry, cacheLookup,
        demoCache, cacheImpl.Get, cacheImpl.Put, mapSet, NewContainerImageCache,
        Reference.String, demoReconciler, Outcome.bind, imageWithDigest])
    rfl
    (by simp [ContainerImageReconciler.getImage, demoRegistry, Errorf])

/-! ## Theorems: a second reconcile attempt -/

theorem fetchAndCache_eq (r : ContainerImageReconciler) (reg : Registry) (c : cacheImpl)
    (putNow : Int) (ref : Reference) :
    fetchAndCache r reg (some c) putNow ref =
      (remoteImage r reg ref).bind fun x =>
        match x with
        | .error e => .ret (.error e, some c)
        | .ok cimg => .ret (.ok cimg, some (c.Put ref (some cimg) putNow).2) := by
  unfold fetchAndCache remoteImage
  cases reg.remoteGet ref with
  | error err => rfl
  | ok desc =>
    simp only
    cases getImage desc r.Platform with
    | panic m => rfl
    | ret res =>
      cases res with
      | error err => rfl
      | ok img =>
        simp only [Outcome.bind]
        cases img.Manifest with
        | error err => rfl
        | ok manifest =>
          cases img.ConfigFile with
          | error err => rfl
          | ok configFile => rfl

theorem remoteImage_digest (r : ContainerImageReconciler) (reg : Registry) (ref : Reference)
    (cimg : ContainerImage) (h : remoteImage r reg ref = .ret (.ok cimg)) :
    ∃ desc, reg.remoteGet ref = .ok desc ∧ cimg.Digest = desc.Digest := by
  unfold remoteImage at h
  cases hg : reg.remoteGet ref with
  | error err => simp [hg] at h
  | ok desc =>
    refine ⟨desc, rfl, ?_⟩
    simp only [hg] at h
    cases hi : getImage desc r.Platform with
    | panic m => simp [hi, Outcome.bind] at h
    | ret res =>
      simp only [hi, Outcome.bind] at h
      cases res with
      | error err => simp at h
      | ok img =>
        simp only at h
        cases hm : img.Manifest with
        | error err => simp [hm] at h
        | ok manifest =>
          cases hc : img.ConfigFile with
          | error err => simp [hm, hc] at h
          | ok configFile =>
            simp only [hm, hc, Outcome.ret.injEq, Except.ok.injEq] at h
            rw [← h]

theorem Get_error (c : cacheImpl) (ref : Reference) (e : Error) (h : c.Get ref = .error e) :
    e = Error.notFound := by
  cases ref with
  | digest repo hex =>
    rw [Get_digest_eq] at h
    cases hi : c.imageMap (DigestStr hex) with
    | none => simp [hi] at h; exact h.symm
    | some x => simp [hi] at h
  | tag repo t =>
    rw [Get_tag_eq] at h
    cases hd : c.digestMap (Reference.tag repo t).String with
    | none => simp [hd] at h; exact h.symm
    | some d =>
      simp only [hd] at h
      by_cases hde : d = ""
      · simp [hde] at h; exact h.symm
      · simp only [hde, if_false] at h
        cases hi : c.imageMap d with
        | none => simp [hi] at h; exact h.symm
        | some x => simp [hi] at h

theorem getImage_some_eq (r : ContainerImageReconciler) (reg : Registry) (c : cacheImpl)
    (now putNow : Int) (imgRef : String) :
    r.getImage reg (some c) now putNow imgRef =
      match reg.ParseReference imgRef with
      | .error err => .ret (.error (.wrap "parsing image reference" err), some c)
      | .ok ref =>
        match c.Get ref with
        | .ok e =>
          if now < e.Time + r.CacheDuration then .ret (.ok e.ContainerImage, some c)
          else .ret (.error (.wrapNil "fetching image details from cache"), some c)
        | .error _ =>
          (remoteImage r reg ref).bind fun x =>
            match x with
            | .error e => .ret (.error e, some c)
            | .ok cimg => .ret (.ok cimg, some (c.Put ref (some cimg) putNow).2) := by
  unfold ContainerImageReconciler.getImage
  cases reg.ParseReference imgRef with
  | error err => rfl
  | ok ref =>
    simp only
    cases hg : c.Get ref with
    | ok e =>
      by_cases hf : now < e.Time + r.CacheDuration
      · simp [cacheLookup, hg, hf]
      · simp [cacheLookup, hg, hf, errorsIsNotFound, Errorf]
    | error e =>
      have he := Get_error c ref e hg
      subst he
      simp [cacheLookup, hg, errorsIsNotFound, Error.isNotFound, fetchAndCache_eq]

theorem Holds_put_same (c : cacheImpl) (ref : Reference) (img : ContainerImage) (t : Int)
    (hwf : digestFits ref img.Digest) :
    (c.Put ref (some img) t).2.Holds ref := by
  cases ref with
  | tag repo tg =>
    refine ⟨{ ContainerImage := img, Time := t }, ?_⟩
    have hne : img.Digest ≠ "" := hwf
    rw [Get_tag_eq]
    simp [cacheImpl.Put, mapSet, hne]
  | digest repo hex =>
    refine ⟨{ ContainerImage := img, Time := t }, ?_⟩
    have heq : img.Digest = DigestStr hex := hwf
    rw [Get_digest_eq]
    simp [cacheImpl.Put, mapSet, heq]

theorem Holds_put_other (c : cacheImpl) (ref ref' : Reference) (img : ContainerImage) (t : Int)
    (hne : img.Digest ≠ "") (h : c.Holds ref) : (c.Put ref' (some img) t).2.Holds ref := by
  obtain ⟨e, he⟩ := h
  cases ref with
  | digest repo hex =>
    rw [Get_digest_eq] at he
    unfold cacheImpl.Holds
    rw [Get_digest_eq]
    by_cases hd : DigestStr hex = img.Digest
    · exact ⟨_, by simp [cacheImpl.Put, mapSet, hd]; rfl⟩
    · cases hi : c.imageMap (DigestStr hex) with
      | none => simp [hi] at he
      | some x => exact ⟨x, by simp [cacheImpl.Put, mapSet, hd, hi]⟩
  | tag repo tg =>
    rw [Get_tag_eq] at he
    unfold cacheImpl.Holds
    rw [Get_tag_eq]
    by_cases hk : (Reference.tag repo tg).String = ref'.String
    · exact ⟨{ ContainerImage := img, Time := t }, by simp [cacheImpl.Put, mapSet, hk, hne]⟩
    · cases hd : c.digestMap (Reference.tag repo tg).String with
      | none => simp [hd] at he
      | some d =>
        simp only [hd] at he
        by_cases hde : d = ""
        · simp [hde] at he
        · simp only [hde, if_false] at he
          by_cases hdi : d = img.Digest
          · exact ⟨{ ContainerImage := img, Time := t }, by
              simp [cacheImpl.Put, mapSet, hk, hd, hdi, hne]⟩
          · cases hi : c.imageMap d with
            | none => simp [hi] at he
            | some x => exact ⟨x, by simp [cacheImpl.Put, mapSet, hk, hd, hde, hdi, hi]⟩

theorem wellFormed_digest (reg : Registry) (hwf : reg.WellFormed) (ref : Reference)
    (desc : remoteDescriptor) (h : reg.remoteGet ref = .ok desc) :
    desc.Digest ≠ "" ∧ digestFits ref desc.Digest := by
  have h' := hwf ref desc h
  refine ⟨?_, h'⟩
  cases ref with
  | tag repo tg => exact h'
  | digest repo hex =>
    have heq : desc.Digest = DigestStr hex := h'
    rw [heq]
    exact DigestStr_ne_empty hex

theorem getImage_step (r : ContainerImageReconciler) (reg : Registry) (hwf : reg.WellFormed)
    (c : cacheImpl) (now putNow : Int) (imgRef : String) (res : Except Error ContainerImage)
    (s' : Option cacheImpl) (h : r.getImage reg (some c) now putNow imgRef = .ret (res, s')) :
    ∃ c', s' = some c' ∧ (∀ ref, c.Holds ref → c'.Holds ref) ∧
      (∀ x, res = .ok x → ∃ ref, reg.ParseReference imgRef = .ok ref ∧ c'.Holds ref) ∧
      (∀ err, res = .error err →
        c' = c ∧ ∀ now2 putNow2 : Int, now ≤ now2 →
          (∀ ref e, reg.ParseReference imgRef = .ok ref → c.Get ref = .ok e →
            now2 < e.Time + r.CacheDuration) →
          r.getImage reg (some c) now2 putNow2 imgRef = .ret (.error err, some c)) := by
  rw [getImage_some_eq] at h
  cases hp : reg.ParseReference imgRef with
  | error perr =>
    simp only [hp, Outcome.ret.injEq, Prod.mk.injEq] at h
    obtain ⟨h1, h2⟩ := h
    subst h1 h2
    refine ⟨c, rfl, fun _ hh => hh, ?_, ?_⟩
    · intro x hx
      cases hx
    · intro err herr
      cases herr
      refine ⟨rfl, ?_⟩
      intro now2 putNow2 _ _
      rw [getImage_some_eq]
      simp [hp]
  | ok ref =>
    simp only [hp] at h
    cases hg : c.Get ref with
    | ok e =>
      simp only [hg] at h
      by_cases hf : now < e.Time + r.CacheDuration
      · simp only [hf, if_true, Outcome.ret.injEq, Prod.mk.injEq] at h
        obtain ⟨h1, h2⟩ := h
        subst h1 h2
        refine ⟨c, rfl, fun _ hh => hh, ?_, ?_⟩
        · intro x _
          exact ⟨ref, rfl, e, hg⟩
        · intro err herr
          cases herr
      · simp only [hf, if_false, Outcome.ret.injEq, Prod.mk.injEq] at h
        obtain ⟨h1, h2⟩ := h
        subst h1 h2
        refine ⟨c, rfl, fun _ hh => hh, ?_, ?_⟩
        · intro x hx
          cases hx
        · intro err herr
          cases herr
          refine ⟨rfl, ?_⟩
          intro now2 putNow2 hle hfresh
          have := hfresh ref e rfl hg
          omega
    | error ge =>
      simp only [hg] at h
      cases hr : remoteImage r reg ref with
      | panic m => simp [hr, Outcome.bind] at h
      | ret x =>
        simp only [hr, Outcome.bind] at h
        cases x with
        | error rerr =>
          simp only [Outcome.ret.injEq, Prod.mk.injEq] at h
          obtain ⟨h1, h2⟩ := h
          subst h1 h2
          refine ⟨c, rfl, fun _ hh => hh, ?_, ?_⟩
          · intro x hx
            cases hx
          · intro err herr
            cases herr
            refine ⟨rfl, ?_⟩
            intro now2 putNow2 _ _
            rw [getImage_some_eq]
            simp [hp, hg, hr, Outcome.bind]
        | ok cimg =>
          simp only [Outcome.ret.injEq, Prod.mk.injEq] at h
          obtain ⟨h1, h2⟩ := h
          subst h1 h2
          obtain ⟨desc, hdesc, hdig⟩ := remoteImage_digest r reg ref cimg hr
          obtain ⟨hne, hfit⟩ := wellFormed_digest reg hwf ref desc hdesc
          rw [← hdig] at hne hfit
          refine ⟨_, rfl, ?_, ?_, ?_⟩
          · intro ref' hh
            exact Holds_put_other c ref' ref cimg putNow hne hh
          · intro x _
            exact ⟨ref, rfl, Holds_put_same c ref cimg putNow hfit⟩
          · intro err herr
            cases herr

theorem reconcileLoop_holds (r : ContainerImageReconciler) (reg : Registry)
    (hwf : reg.WellFormed) (now putNow : Int) (cs : List ContainerSpec) :
    ∀ (c : cacheImpl) (R : LoopResult (Option cacheImpl)),
      reconcileLoop (fun s img => r.getImage reg s now putNow img) cs (some c) = .ret R →
      ∃ c1, R.state = some c1 ∧ ∀ ref, c.Holds ref → c1.Holds ref := by
  induction cs with
  | nil =>
    intro c R h
    simp only [reconcileLoop, Outcome.ret.injEq] at h
    subst h
    exact ⟨c, rfl, fun _ hh => hh⟩
  | cons k rest ih =>
    intro c R h
    simp only [reconcileLoop] at h
    cases hst : r.getImage reg (some c) now putNow k.Image with
    | panic m => simp [hst, Outcome.bind] at h
    | ret out =>
      obtain ⟨res, s'⟩ := out
      obtain ⟨c', hs', hpres, _, _⟩ := getImage_step r reg hwf c now putNow k.Image res s' hst
      subst hs'
      simp only [hst, Outcome.bind] at h
      cases res with
      | error err =>
        simp only [Outcome.ret.injEq] at h
        subst h
        exact ⟨c', rfl, hpres⟩
      | ok img =>
        simp only at h
        cases hrest : reconcileLoop (fun s img => r.getImage reg s now putNow img) rest
            (some c') with
        | panic m => simp [hrest, Outcome.bind] at h
        | ret R' =>
          simp only [hrest, Outcome.bind, Outcome.ret.injEq] at h
          subst h
          obtain ⟨c1, hc1, hp1⟩ := ih c' R' hrest
          exact ⟨c1, hc1, fun ref hh => hp1 ref (hpres ref hh)⟩

theorem reconcileLoop_again (r : ContainerImageReconciler) (reg : Registry)
    (hwf : reg.WellFormed) (t1 p1 t2 p2 : Int) (ht : t1 ≤ t2) (c1 : cacheImpl)
    (cs : List ContainerSpec) :
    ∀ (c0 : cacheImpl) (R1 : LoopResult (Option cacheImpl)),
      reconcileLoop (fun s img => r.getImage reg s t1 p1 img) cs (some c0) = .ret R1 →
      R1.state = some c1 →
      (∀ k ∈ cs, ∀ ref e, reg.ParseReference k.Image = .ok ref → c1.Get ref = .ok e →
        t2 < e.Time + r.CacheDuration) →
      ∃ R2, reconcileLoop (fun s img => r.getImage reg s t2 p2 img) cs (some c1) = .ret R2 ∧
        R2.state = some c1 ∧ R2.err = R1.err := by
  induction cs with
  | nil =>
    intro c0 R1 h hstate _
    simp only [reconcileLoop, Outcome.ret.injEq] at h
    subst h
    exact ⟨{ err := none, state := some c1, calls := [] }, rfl, rfl, rfl⟩
  | cons k rest ih =>
    intro c0 R1 h hstate hfresh
    simp only [reconcileLoop] at h
    cases hst : r.getImage reg (some c0) t1 p1 k.Image with
    | panic m => simp [hst, Outcome.bind] at h
    | ret out =>
      obtain ⟨res, s'⟩ := out
      obtain ⟨c', hs', hpres, hok, herr⟩ :=
        getImage_step r reg hwf c0 t1 p1 k.Image res s' hst
      subst hs'
      simp only [hst, Outcome.bind] at h
      cases res with
      | error err =>
        simp only [Outcome.ret.injEq] at h
        subst h
        simp only [Option.some.injEq] at hstate
        obtain ⟨hc, hagain⟩ := herr err rfl
        subst hc
        subst hstate
        have h2 := hagain t2 p2 ht (fun ref e hp hg =>
          hfresh k (List.mem_cons_self _ _) ref e hp hg)
        exact ⟨_, by simp [reconcileLoop, h2, Outcome.bind], rfl, rfl⟩
      | ok img =>
        simp only at h
        cases hrest : reconcileLoop (fun s img => r.getImage reg s t1 p1 img) rest
            (some c') with
        | panic m => simp [hrest, Outcome.bind] at h
        | ret R' =>
          simp only [hrest, Outcome.bind, Outcome.ret.injEq] at h
          subst h
          simp only at hstate
          obtain ⟨ref, hp, hholds⟩ := hok img rfl
          obtain ⟨c1', hc1', hp1⟩ := reconcileLoop_holds r reg hwf t1 p1 rest c' R' hrest
          rw [hstate] at hc1'
          simp only [Option.some.injEq] at hc1'
          subst hc1'
          obtain ⟨e, he⟩ := hp1 ref hholds
          have hf := hfresh k (List.mem_cons_self _ _) ref e hp he
          have hhit : r.getImage reg (some c1) t2 p2 k.Image =
              .ret (.ok e.ContainerImage, some c1) := by
            rw [getImage_some_eq]
            simp [hp, he, hf]
          obtain ⟨R2', hR2', hs2, he2⟩ := ih c' R' hrest hstate
            (fun k' hk' => hfresh k' (List.mem_cons_of_mem _ hk'))
          exact ⟨{ err := R2'.err, state := R2'.state,
                   calls := (k, .ok e.ContainerImage) :: R2'.calls },
            by simp [reconcileLoop, hhit, Outcome.bind, hR2'], hs2, he2⟩

theorem addJitter_returns_again (d : Int) (raw raw' : Nat) (x : Int)
    (h : addJitter d raw = .ret x) : ∃ y, addJitter d raw' = .ret y := by
  by_cases hd : d ≤ 0
  · exact ⟨d, by simp [addJitter, hd]⟩
  · by_cases h6 : d < 6
    · rw [addJitter_small d raw (by omega) h6] at h
      cases h
    · exact ⟨_, addJitter_pos d raw' (by omega)⟩

theorem strictRegistry_wellFormed : strictRegistry.WellFormed := by
  intro ref desc h
  cases ref with
  | tag repo tg =>
    simp only [strictRegistry, Except.ok.injEq] at h
    subst h
    simp only [digestFits, demoDescriptor]
    decide
  | digest repo hex => simp [strictRegistry] at h

theorem containerSpecs_demoPod :
    containerSpecs demoPod.Object =
      [{ JSONPath := jsonPath ["spec", "containers"] 0, Name := "app", Image := "repo:v1" }] := by
  simp [demoPod, containerSpecs, containerSpecsPaths, containerPaths, NestedSlice,
    NestedFieldNoCopy, containerSpecsLoop, List.lookup]

theorem Reconcile_demoPod_first :
    demoReconciler.Reconcile (demoCluster demoPod) strictRegistry (some NewContainerImageCache)
      0 0 0 = .ret demoPodFirst := by
  have hj : addJitter 10 0 = .ret 10 := by
    rw [addJitter_pos 10 0 (by decide)]
    decide
  simp [ContainerImageReconciler.Reconcile, demoCluster, containerSpecs_demoPod, reconcileLoop,
    getImage_some_eq, strictRegistry, demoRegistry, NewContainerImageCache, cacheImpl.Get,
    Reference.String, remoteImage, demoDescriptor, getImage, OCIImageIndex, DockerManifestList,
    Outcome.bind, demoImage, imageSize, wrap64, demoReconciler, hj, demoPodFirst,
    demoCacheAfter, demoFetched]

theorem demoCacheAfter_Get :
    demoCacheAfter.Get (.tag "repo" "v1") = .ok { ContainerImage := demoFetched, Time := 0 } := by
  decide

/-- Within the duration a second attempt repeats the first: for a registry
with well-formed digests, if an attempt
at time `t1` on cache `c0` returns and leaves the cache `c1`, then a second
attempt on the same object at a time `t2 >= t1` at which every entry of `c1`
that the containers of the object resolve to is still within the duration
returns too, with the same error or lack of error, leaves the cache exactly
`c1` (aliases, metadata and times), and sets a requeue delay just when the
first did (zero both times, or the jittered duration both times). -/
theorem Reconcile_twice_within_ttl (r : ContainerImageReconciler) (cl : Cluster)
    (reg : Registry) (c0 c1 : cacheImpl) (t1 p1 t2 p2 : Int) (raw1 raw2 : Nat)
    (out1 : ReconcileResult) (hwf : reg.WellFormed)
    (h1 : r.Reconcile cl reg (some c0) t1 p1 raw1 = .ret out1)
    (hc1 : out1.cache = some c1) (ht : t1 ≤ t2)
    (hfresh : ∀ obj, cl.clientGet = .found obj →
      ∀ k ∈ containerSpecs obj.Object, ∀ ref e, reg.ParseReference k.Image = .ok ref →
        c1.Get ref = .ok e → t2 < e.Time + r.CacheDuration) :
    ∃ out2, r.Reconcile cl reg (some c1) t2 p2 raw2 = .ret out2 ∧
      out2.cache = some c1 ∧ out2.err = out1.err ∧
      ((out1.result.RequeueAfter = 0 ∧ out2.result.RequeueAfter = 0) ∨
        (addJitter r.CacheDuration raw1 = .ret out1.result.RequeueAfter ∧
          addJitter r.CacheDuration raw2 = .ret out2.result.RequeueAfter)) := by
  cases hcl : cl.clientGet with
  | notFound =>
    simp only [ContainerImageReconciler.Reconcile, hcl, Outcome.ret.injEq] at h1
    subst h1
    simp only [Option.some.injEq] at hc1
    subst hc1
    exact ⟨_, by simp [ContainerImageReconciler.Reconcile, hcl], rfl, rfl, Or.inl ⟨rfl, rfl⟩⟩
  | failed err =>
    simp only [ContainerImageReconciler.Reconcile, hcl, Outcome.ret.injEq] at h1
    subst h1
    simp only [Option.some.injEq] at hc1
    subst hc1
    exact ⟨_, by simp [ContainerImageReconciler.Reconcile, hcl], rfl, rfl, Or.inl ⟨rfl, rfl⟩⟩
  | found obj =>
    cases hkc : cl.k8schainNew obj.Namespace (serviceAccountName obj.Object)
        (imagePullSecrets obj.Object) with
    | some err =>
      simp only [ContainerImageReconciler.Reconcile, hcl, hkc, Outcome.ret.injEq] at h1
      subst h1
      simp only [Option.some.injEq] at hc1
      subst hc1
      exact ⟨_, by simp [ContainerImageReconciler.Reconcile, hcl, hkc], rfl, rfl,
        Or.inl ⟨rfl, rfl⟩⟩
    | none =>
      obtain ⟨R1, hloop1, _, he1, hs1, hz1, hj1⟩ :=
        Reconcile_found r cl reg (some c0) t1 p1 raw1 obj out1 hcl hkc h1
      obtain ⟨R2, hloop2, hs2, he2⟩ :=
        reconcileLoop_again r reg hwf t1 p1 t2 p2 ht c1 (containerSpecs obj.Object) c0 R1
          hloop1 (by rw [← hs1, hc1]) (hfresh obj hcl)
      cases herr : R1.err with
      | some err =>
        refine ⟨{ result := { RequeueAfter := 0 }, err := some err, cache := R2.state,
                  calls := R2.calls }, ?_, hs2, ?_, ?_⟩
        · simp [ContainerImageReconciler.Reconcile, hcl, hkc, hloop2, Outcome.bind, he2, herr]
        · rw [he1, herr]
        · exact Or.inl ⟨hz1 (by simp [herr]), rfl⟩
      | none =>
        have hja := hj1 herr
        obtain ⟨y, hy⟩ := addJitter_returns_again r.CacheDuration raw1 raw2 _ hja
        refine ⟨{ result := { RequeueAfter := y }, err := none, cache := R2.state,
                  calls := R2.calls }, ?_, hs2, ?_, ?_⟩
        · simp [ContainerImageReconciler.Reconcile, hcl, hkc, hloop2, Outcome.bind, he2, herr,
            hy]
        · rw [he1, herr]
        · exact Or.inr ⟨hja, hy⟩

/-- An instance of `Reconcile_twice_within_ttl`: the pod is reconciled at
time 0 on the empty cache and again at time 5, within the duration of 10. -/
theorem Reconcile_twice_within_ttl_witness :
    ∃ out2, demoReconciler.Reconcile (demoCluster demoPod) strictRegistry (some demoCacheAfter)
        5 5 3 = .ret out2 ∧
      out2.cache = some demoCacheAfter ∧ out2.err = demoPodFirst.err ∧
      ((demoPodFirst.result.RequeueAfter = 0 ∧ out2.result.RequeueAfter = 0) ∨
        (addJitter demoReconciler.CacheDuration 0 = .ret demoPodFirst.result.RequeueAfter ∧
          addJitter demoReconciler.CacheDuration 3 = .ret out2.result.RequeueAfter)) :=
  Reconcile_twice_within_ttl demoReconciler (demoCluster demoPod) strictRegistry
    NewContainerImageCache demoCacheAfter 0 0 5 5 0 3 demoPodFirst strictRegistry_wellFormed
    Reconcile_demoPod_first rfl (by decide)
    (by
      intro obj hobj k hk ref e hp hg
      simp only [demoCluster, ClientGet.found.injEq] at hobj
      subst hobj
      rw [containerSpecs_demoPod] at hk
      simp only [List.mem_singleton] at hk
      subst hk
      have hp' : ref = .tag "repo" "v1" := by
        simp [strictRegistry, demoRegistry] at hp
        exact hp.symm
      subst hp'
      rw [demoCacheAfter_Get] at hg
      simp only [Except.ok.injEq] at hg
      subst hg
      decide)

/-- C17, the code at the failing input: the pod `web` (container `app`, image
`repo:v1`) is reconciled at time 0 on the empty cache with a duration of 10,
which succeeds, stores the image and asks for a requeue; it is reconciled
again at time 10, the registry answering as before.  The claim gives the
second attempt the outcome of the first; the code finds the entry expired and
returns `fetching image details` wrapping `fetching image details from cache`
wrapping the nil error, with no requeue delay. -/
theorem Reconcile_second_attempt_fails :
    demoReconciler.Reconcile (demoCluster demoPod) strictRegistry (some NewContainerImageCache)
        0 0 0 = .ret demoPodFirst ∧
      demoPodFirst.err = none ∧ demoPodFirst.cache = some demoCacheAfter ∧
      demoReconciler.Reconcile (demoCluster demoPod) strictRegistry (some demoCacheAfter)
        10 10 0 =
        .ret { result := { RequeueAfter := 0 },
               err := some (.wrap "fetching image details"
                 (.wrapNil "fetching image details from cache")),
               cache := some demoCacheAfter,
               calls :=
                 [({ JSONPath := jsonPath ["spec", "containers"] 0, Name := "app",
                     Image := "repo:v1" },
                   .error (.wrapNil "fetching image details from cache"))] } := by
  refine ⟨Reconcile_demoPod_first, rfl, rfl, ?_⟩
  simp [ContainerImageReconciler.Reconcile, demoCluster, containerSpecs_demoPod, reconcileLoop,
    getImage_some_eq, strictRegistry, demoRegistry, demoCacheAfter_Get, demoReconciler,
    Outcome.bind, Errorf]

/-! ## Theorems: the metrics of a scrape -/

theorem collectContainers_eq_pairs (e : Exporter) (item : Unstructured)
    (cs : List ContainerSpec) :
    ∀ digests : List String,
      collectContainers e item cs digests =
        collectPairs e (cs.map fun c => (item, c)) digests := by
  induction cs with
  | nil => intro digests; rfl
  | cons c rest ih =>
    intro digests
    simp only [collectContainers, List.map_cons, collectPairs]
    cases e.fetchImage c.Image with
    | error err => simp [ih]
    | ok img =>
      by_cases hm : img.Digest ∈ digests
      · simp [hm, ih]
      · simp [hm, ih]

theorem collectPairs_append (e : Exporter) (ps qs : List (Unstructured × ContainerSpec)) :
    ∀ digests : List String,
      collectPairs e (ps ++ qs) digests =
        ((collectPairs e qs (collectPairs e ps digests).1).1,
          (collectPairs e ps digests).2 ++ (collectPairs e qs (collectPairs e ps digests).1).2) := by
  induction ps with
  | nil => intro digests; simp [collectPairs]
  | cons p rest ih =>
    intro digests
    simp only [List.cons_append, collectPairs]
    cases e.fetchImage p.2.Image with
    | error err => simp [ih]
    | ok img =>
      by_cases hm : img.Digest ∈ digests
      · simp [hm, ih]
      · simp [hm, ih]

theorem collectItems_eq_pairs (e : Exporter) (items : List Unstructured) :
    ∀ digests : List String,
      collectItems e items digests = collectPairs e (itemContainers items) digests := by
  induction items with
  | nil => intro digests; rfl
  | cons item rest ih =>
    intro digests
    have hcons : itemContainers (item :: rest) =
        ((containerSpecs item.Object).map fun c => (item, c)) ++ itemContainers rest := by
      simp [itemContainers]
    rw [hcons, collectPairs_append]
    simp only [collectItems, collectContainers_eq_pairs, ih]

theorem collectResources_eq_pairs (e : Exporter) (gs : List GroupVersionKind) :
    ∀ digests : List String,
      collectResources e gs digests = (collectPairs e (e.reached gs) digests).2 := by
  induction gs with
  | nil => intro digests; rfl
  | cons g rest ih =>
    intro digests
    simp only [collectResources, Exporter.reached]
    cases e.clientList g with
    | error err => rfl
    | ok items =>
      simp only
      rw [collectPairs_append, collectItems_eq_pairs, ih]

theorem reached_eq_scrapeContainers (e : Exporter) (gs : List GroupVersionKind)
    (hall : ∀ g ∈ gs, ∃ items, e.clientList g = .ok items) :
    e.reached gs =
      gs.flatMap fun g =>
        match e.clientList g with
        | .ok items => itemContainers items
        | .error _ => [] := by
  induction gs with
  | nil => rfl
  | cons g rest ih =>
    obtain ⟨items, hitems⟩ := hall g (List.mem_cons_self _ _)
    simp only [Exporter.reached, List.flatMap_cons, hitems]
    rw [ih (fun g' hg' => hall g' (List.mem_cons_of_mem _ hg'))]

theorem descs_distinct :
    metricSize ≠ metricContainerInfo ∧ metricCreated ≠ metricContainerInfo ∧
      metricAnnotation ≠ metricContainerInfo ∧ metricLabel ≠ metricContainerInfo ∧
      metricCreated ≠ metricSize ∧ metricAnnotation ≠ metricSize ∧ metricLabel ≠ metricSize ∧
      metricSize ≠ metricCreated ∧ metricAnnotation ≠ metricCreated ∧
      metricLabel ≠ metricCreated ∧ metricLabel ≠ metricAnnotation ∧
      metricSize ≠ metricAnnotation ∧ metricCreated ≠ metricAnnotation ∧
      metricSize ≠ metricLabel ∧ metricCreated ≠ metricLabel ∧
      metricAnnotation ≠ metricLabel := by
  decide

theorem filter_map_all {α β : Type} (f : α → β) (q : β → Bool) (l : List α)
    (h : ∀ x, q (f x) = true) : (l.map f).filter q = l.map f := by
  induction l with
  | nil => rfl
  | cons x rest ih => simp [List.filter_cons, h x, ih]

theorem filter_map_none {α β : Type} (f : α → β) (q : β → Bool) (l : List α)
    (h : ∀ x, q (f x) = false) : (l.map f).filter q = [] := by
  induction l with
  | nil => rfl
  | cons x rest ih => simp [List.filter_cons, h x, ih]

theorem filter_info_digestMetrics (img : ContainerImage) :
    (digestMetrics img).filter (fun m => decide (m.desc = metricContainerInfo)) = [] := by
  obtain ⟨h1, h2, h3, h4, _⟩ := descs_distinct
  unfold digestMetrics
  rw [List.filter_append, List.filter_append, filter_map_none, filter_map_none]
  · simp [List.filter_cons, h1, h2]
  · intro x; simp [h4]
  · intro x; simp [h3]

theorem filter_perDigest_digestMetrics (d : String) (img : ContainerImage) :
    (digestMetrics img).filter (perDigest d) =
      if img.Digest = d then digestMetrics img else [] := by
  obtain ⟨h1, h2, h3, h4, _⟩ := descs_distinct
  by_cases hd : img.Digest = d
  · simp only [hd, if_true]
    unfold digestMetrics
    rw [List.filter_append, List.filter_append, filter_map_all, filter_map_all]
    · simp [List.filter_cons, perDigest, h1, h2, hd]
    · intro x; simp [perDigest, h4, hd]
    · intro x; simp [perDigest, h3, hd]
  · simp only [hd, if_false]
    unfold digestMetrics
    rw [List.filter_append, List.filter_append, filter_map_none, filter_map_none]
    · simp [List.filter_cons, perDigest, hd]
    · intro x; simp [perDigest, hd]
    · intro x; simp [perDigest, hd]

theorem collectPairs_info (e : Exporter) (ps : List (Unstructured × ContainerSpec)) :
    ∀ digests : List String,
      (collectPairs e ps digests).2.filter (fun m => decide (m.desc = metricContainerInfo)) =
        ps.map fun p => infoMetric p.1 p.2 (e.digestLabel p.2) := by
  induction ps with
  | nil => intro digests; rfl
  | cons p rest ih =>
    intro digests
    simp only [collectPairs, List.map_cons]
    cases hf : e.fetchImage p.2.Image with
    | error err =>
      have hl : e.digestLabel p.2 = "" := by simp [Exporter.digestLabel, hf]
      simp [List.filter_cons, infoMetric, ih, hl]
    | ok img =>
      have hl : e.digestLabel p.2 = img.Digest := by simp [Exporter.digestLabel, hf]
      by_cases hm : img.Digest ∈ digests
      · simp [hm, List.filter_cons, infoMetric, ih, hl]
      · simp [hm, List.filter_cons, infoMetric, ih, hl, List.filter_append,
          filter_info_digestMetrics]

theorem collectPairs_perDigest (e : Exporter) (d : String)
    (ps : List (Unstructured × ContainerSpec)) :
    ∀ digests : List String,
      (collectPairs e ps digests).2.filter (perDigest d) =
        if d ∈ digests then []
        else
          match e.firstResolved d ps with
          | some img => digestMetrics img
          | none => [] := by
  have hinfo : ∀ (item : Unstructured) (c : ContainerSpec) (x : String),
      perDigest d (infoMetric item c x) = false := by
    intro item c x
    simp [perDigest, infoMetric]
  induction ps with
  | nil =>
    intro digests
    simp [collectPairs, Exporter.firstResolved]
  | cons p rest ih =>
    intro digests
    simp only [collectPairs, Exporter.firstResolved]
    cases e.fetchImage p.2.Image with
    | error err => simp [List.filter_cons, hinfo, ih]
    | ok img =>
      by_cases hm : img.Digest ∈ digests
      · simp only [hm, if_true, List.filter_cons, hinfo, ih]
        by_cases hd : img.Digest = d
        · subst hd
          simp [hm]
        · simp [hd]
      · simp only [hm, if_false, List.filter_cons, hinfo, List.filter_append,
          filter_perDigest_digestMetrics, ih]
        by_cases hd : img.Digest = d
        · subst hd
          simp [hm]
        · have hd' : ¬ d = img.Digest := fun h => hd h.symm
          simp [hd, hd', List.mem_cons]

theorem firstResolved_some (e : Exporter) (d : String)
    (ps : List (Unstructured × ContainerSpec)) (img : ContainerImage)
    (h : e.firstResolved d ps = some img) :
    img.Digest = d ∧ ∃ p ∈ ps, e.fetchImage p.2.Image = .ok img := by
  induction ps with
  | nil => simp [Exporter.firstResolved] at h
  | cons p rest ih =>
    simp only [Exporter.firstResolved] at h
    cases hf : e.fetchImage p.2.Image with
    | error err =>
      simp only [hf] at h
      obtain ⟨h1, q, hq, hq'⟩ := ih h
      exact ⟨h1, q, List.mem_cons_of_mem _ hq, hq'⟩
    | ok x =>
      simp only [hf] at h
      by_cases hd : x.Digest = d
      · simp only [hd, if_true, Option.some.injEq] at h
        subst h
        exact ⟨hd, p, List.mem_cons_self _ _, hf⟩
      · simp only [hd, if_false] at h
        obtain ⟨h1, q, hq, hq'⟩ := ih h
        exact ⟨h1, q, List.mem_cons_of_mem _ hq, hq'⟩

theorem firstResolved_none (e : Exporter) (d : String)
    (ps : List (Unstructured × ContainerSpec)) (h : e.firstResolved d ps = none) :
    ∀ p ∈ ps, ∀ img, e.fetchImage p.2.Image = .ok img → img.Digest ≠ d := by
  induction ps with
  | nil => intro p hp; cases hp
  | cons q rest ih =>
    simp only [Exporter.firstResolved] at h
    intro p hp img hf
    cases hq : e.fetchImage q.2.Image with
    | error err =>
      simp only [hq] at h
      rcases List.mem_cons.mp hp with heq | hmem
      · subst heq
        rw [hq] at hf
        cases hf
      · exact ih h p hmem img hf
    | ok x =>
      simp only [hq] at h
      by_cases hd : x.Digest = d
      · simp [hd] at h
      · simp only [hd, if_false] at h
        rcases List.mem_cons.mp hp with heq | hmem
        · subst heq
          rw [hq] at hf
          cases hf
          exact hd
        · exact ih h p hmem img hf

theorem filter_ofFamily_eq (desc : Desc) (d : String) (hne : desc ≠ metricContainerInfo)
    (l : List Metric) : l.filter (ofFamily desc d) = (l.filter (perDigest d)).filter (ofFamily desc d) := by
  rw [List.filter_filter]
  congr 1
  funext m
  by_cases h1 : m.desc = desc
  · by_cases h2 : m.labelValues.head? = some d
    · simp [ofFamily, perDigest, h1, h2, hne]
    · simp [ofFamily, perDigest, h1, h2]
  · simp [ofFamily, perDigest, h1]

theorem filter_ofFamily_digestMetrics (img : ContainerImage) :
    (digestMetrics img).filter (ofFamily metricSize img.Digest) =
        [{ desc := metricSize, value := img.Size, labelValues := [img.Digest] }] ∧
      (digestMetrics img).filter (ofFamily metricCreated img.Digest) =
        [{ desc := metricCreated, value := Unix img.Created, labelValues := [img.Digest] }] ∧
      (digestMetrics img).filter (ofFamily metricAnnotation img.Digest) =
        img.Annotations.map (fun kv =>
          { desc := metricAnnotation, value := 1, labelValues := [img.Digest, kv.1, kv.2] }) ∧
      (digestMetrics img).filter (ofFamily metricLabel img.Digest) =
        img.Labels.map (fun kv =>
          { desc := metricLabel, value := 1, labelValues := [img.Digest, kv.1, kv.2] }) := by
  obtain ⟨h1, h2, h3, h4, h5, h6, h7, h8, h9, h10, h11, h12, h13, h14, h15, h16⟩ :=
    descs_distinct
  refine ⟨?_, ?_, ?_, ?_⟩
  · unfold digestMetrics
    rw [List.filter_append, List.filter_append, filter_map_none, filter_map_none]
    · simp [List.filter_cons, ofFamily, h5]
    · intro x; simp [ofFamily, h7]
    · intro x; simp [ofFamily, h6]
  · unfold digestMetrics
    rw [List.filter_append, List.filter_append, filter_map_none, filter_map_none]
    · simp [List.filter_cons, ofFamily, h8]
    · intro x; simp [ofFamily, h10]
    · intro x; simp [ofFamily, h9]
  · unfold digestMetrics
    rw [List.filter_append, List.filter_append, filter_map_all, filter_map_none]
    · simp [List.filter_cons, ofFamily, h12, h13]
    · intro x; simp [ofFamily, h11]
    · intro x; simp [ofFamily]
  · unfold digestMetrics
    rw [List.filter_append, List.filter_append, filter_map_none, filter_map_all]
    · simp [List.filter_cons, ofFamily, h14, h15]
    · intro x; simp [ofFamily]
    · intro x; simp [ofFamily, h16]

theorem Collect_eq_pairs (e : Exporter) :
    e.Collect = (collectPairs e (e.reached resources) []).2 :=
  collectResources_eq_pairs e resources []

theorem reached_of_all (e : Exporter)
    (hall : ∀ g ∈ resources, ∃ items, e.clientList g = .ok items) :
    e.reached resources = e.scrapeContainers :=
  reached_eq_scrapeContainers e resources hall

/-- C11: in a scrape in which every listing succeeds, one info metric is sent
per extracted container, in order; and for every digest `d`, if the cache
resolves the image reference of at least one extracted container to an image
with digest `d`, then the metrics about `d` are exactly those of the first
such image: one size metric, one created metric, one annotation metric per
annotation and one label metric per label, however many containers resolve to
`d`; if no container resolves to `d`, no metric about `d` is sent. -/
theorem collect_dedup (e : Exporter)
    (hall : ∀ g ∈ resources, ∃ items, e.clientList g = .ok items) :
    e.Collect.filter (fun m => decide (m.desc = metricContainerInfo)) =
        e.scrapeContainers.map (fun p => infoMetric p.1 p.2 (e.digestLabel p.2)) ∧
      ∀ d : String,
        ((∃ p ∈ e.scrapeContainers, ∃ img, e.fetchImage p.2.Image = .ok img ∧ img.Digest = d) →
          ∃ img, e.firstResolved d e.scrapeContainers = some img ∧ img.Digest = d ∧
            e.Collect.filter (perDigest d) = digestMetrics img ∧
            e.Collect.filter (ofFamily metricSize d) =
              [{ desc := metricSize, value := img.Size, labelValues := [d] }] ∧
            e.Collect.filter (ofFamily metricCreated d) =
              [{ desc := metricCreated, value := Unix img.Created, labelValues := [d] }] ∧
            e.Collect.filter (ofFamily metricAnnotation d) =
              img.Annotations.map (fun kv =>
                { desc := metricAnnotation, value := 1, labelValues := [d, kv.1, kv.2] }) ∧
            e.Collect.filter (ofFamily metricLabel d) =
              img.Labels.map (fun kv =>
                { desc := metricLabel, value := 1, labelValues := [d, kv.1, kv.2] })) ∧
        ((¬ ∃ p ∈ e.scrapeContainers, ∃ img, e.fetchImage p.2.Image = .ok img ∧ img.Digest = d) →
          e.Collect.filter (perDigest d) = []) := by
  obtain ⟨h1, h2, h3, h4, _⟩ := descs_distinct
  have hc : e.Collect = (collectPairs e e.scrapeContainers []).2 := by
    rw [Collect_eq_pairs, reached_of_all e hall]
  refine ⟨by rw [hc, collectPairs_info], ?_⟩
  intro d
  have hper := collectPairs_perDigest e d e.scrapeContainers []
  simp only [List.not_mem_nil, if_false] at hper
  constructor
  · rintro ⟨p, hp, img0, hf, hd⟩
    cases hfr : e.firstResolved d e.scrapeContainers with
    | none => exact absurd hd (firstResolved_none e d _ hfr p hp img0 hf)
    | some img =>
      obtain ⟨hdig, _⟩ := firstResolved_some e d _ img hfr
      have hpd : e.Collect.filter (perDigest d) = digestMetrics img := by
        rw [hc, hper, hfr]
      obtain ⟨f1, f2, f3, f4⟩ := filter_ofFamily_digestMetrics img
      rw [hdig] at f1 f2 f3 f4
      refine ⟨img, rfl, hdig, hpd, ?_, ?_, ?_, ?_⟩
      · rw [filter_ofFamily_eq metricSize d h1, hpd, f1]
      · rw [filter_ofFamily_eq metricCreated d h2, hpd, f2]
      · rw [filter_ofFamily_eq metricAnnotation d h3, hpd, f3]
      · rw [filter_ofFamily_eq metricLabel d h4, hpd, f4]
  · intro hno
    cases hfr : e.firstResolved d e.scrapeContainers with
    | none => rw [hc, hper, hfr]
    | some img =>
      obtain ⟨hdig, p, hp, hf⟩ := firstResolved_some e d _ img hfr
      exact absurd ⟨p, hp, img, hf, hdig⟩ hno

theorem containerSpecs_demoPodB :
    containerSpecs demoPodB.Object =
      [{ JSONPath := jsonPath ["spec", "containers"] 0, Name := "api", Image := "repo:v1" },
        { JSONPath := jsonPath ["spec", "containers"] 1, Name := "job", Image := "other" }] := by
  simp [demoPodB, containerSpecs, containerSpecsPaths, containerPaths, NestedSlice,
    NestedFieldNoCopy, containerSpecsLoop, List.lookup]

theorem okExporter_lists (g : GroupVersionKind) : ∃ items, okExporter.clientList g = .ok items := by
  by_cases h : g.Kind = "Pod"
  · exact ⟨[demoPod, demoPodB], by simp [okExporter, h]⟩
  · exact ⟨[], by simp [okExporter, h]⟩

theorem okExporter_scrapeContainers :
    okExporter.scrapeContainers =
      [(demoPod, { JSONPath := jsonPath ["spec", "containers"] 0, Name := "app",
                   Image := "repo:v1" }),
        (demoPodB, { JSONPath := jsonPath ["spec", "containers"] 0, Name := "api",
                     Image := "repo:v1" }),
        (demoPodB, { JSONPath := jsonPath ["spec", "containers"] 1, Name := "job",
                     Image := "other" })] := by
  simp [Exporter.scrapeContainers, resources, okExporter, itemContainers,
    containerSpecs_demoPod, containerSpecs_demoPodB]

theorem okExporter_fetch :
    okExporter.fetchImage "repo:v1" = .ok (imageWithDigest "sha256:aa") ∧
      okExporter.fetchImage "other" =
        .error (.wrap "parsing image" (.external "could not parse reference")) := by
  decide

/-- C11, witness of `collect_dedup`: the pods `web` and `api` both run
`repo:v1`, which the cache resolves to `sha256:aa`; the scrape sends one size
metric and one created metric for that digest. -/
theorem collect_dedup_witness :
    ∃ img, okExporter.firstResolved "sha256:aa" okExporter.scrapeContainers = some img ∧
      img.Digest = "sha256:aa" ∧
      okExporter.Collect.filter (perDigest "sha256:aa") = digestMetrics img ∧
      okExporter.Collect.filter (ofFamily metricSize "sha256:aa") =
        [{ desc := metricSize, value := img.Size, labelValues := ["sha256:aa"] }] ∧
      okExporter.Collect.filter (ofFamily metricCreated "sha256:aa") =
        [{ desc := metricCreated, value := Unix img.Created, labelValues := ["sha256:aa"] }] ∧
      okExporter.Collect.filter (ofFamily metricAnnotation "sha256:aa") =
        img.Annotations.map (fun kv =>
          { desc := metricAnnotation, value := 1, labelValues := ["sha256:aa", kv.1, kv.2] }) ∧
      okExporter.Collect.filter (ofFamily metricLabel "sha256:aa") =
        img.Labels.map (fun kv =>
          { desc := metricLabel, value := 1, labelValues := ["sha256:aa", kv.1, kv.2] }) :=
  ((collect_dedup okExporter (fun g _ => okExporter_lists g)).2 "sha256:aa").1
    ⟨(demoPod, { JSONPath := jsonPath ["spec", "containers"] 0, Name := "app",
                 Image := "repo:v1" }),
      by rw [okExporter_scrapeContainers]; exact List.mem_cons_self _ _,
      imageWithDigest "sha256:aa", okExporter_fetch.1, rfl⟩

theorem okExporter_Collect_families :
    okExporter.Collect.map (fun m => (m.desc.fqName, m.labelValues.getLast?)) =
      [("container_image_container_info", some "sha256:aa"),
        ("container_image_size_bytes", some "sha256:aa"),
        ("container_image_created", some "sha256:aa"),
        ("container_image_container_info", some "sha256:aa"),
        ("container_image_container_info", some "")] := by
  decide

/-- C12: when the image reference of a container that the scrape gets to
does not parse or is not found in the cache, the scrape sends for that
container exactly one metric, the info metric with value 1 and the empty
string as digest label, between the metrics of the containers before it and
those of the containers after it, which are the metrics a scrape without that
container sends. -/
theorem collect_cache_miss (e : Exporter) (pre post : List (Unstructured × ContainerSpec))
    (p : Unstructured × ContainerSpec) (err : Error)
    (hsplit : e.reached resources = pre ++ p :: post)
    (hmiss : e.fetchImage p.2.Image = .error err) :
    e.Collect =
        (collectPairs e pre []).2 ++
          infoMetric p.1 p.2 "" :: (collectPairs e post (collectPairs e pre []).1).2 ∧
      (collectPairs e (pre ++ post) []).2 =
        (collectPairs e pre []).2 ++ (collectPairs e post (collectPairs e pre []).1).2 ∧
      (infoMetric p.1 p.2 "").desc = metricContainerInfo ∧
      (infoMetric p.1 p.2 "").value = 1 ∧
      (infoMetric p.1 p.2 "").labelValues.getLast? = some "" ∧
      ∀ d, perDigest d (infoMetric p.1 p.2 "") = false := by
  refine ⟨?_, ?_, rfl, rfl, rfl, ?_⟩
  · rw [Collect_eq_pairs, hsplit, collectPairs_append]
    simp [collectPairs, hmiss]
  · rw [collectPairs_append]
  · intro d
    simp [perDigest, infoMetric]

theorem okExporter_reached :
    okExporter.reached resources =
      [(demoPod, { JSONPath := jsonPath ["spec", "containers"] 0, Name := "app",
                   Image := "repo:v1" }),
        (demoPodB, { JSONPath := jsonPath ["spec", "containers"] 0, Name := "api",
                     Image := "repo:v1" })] ++
        (demoPodB, { JSONPath := jsonPath ["spec", "containers"] 1, Name := "job",
                     Image := "other" }) :: [] := by
  rw [reached_of_all okExporter (fun g _ => okExporter_lists g), okExporter_scrapeContainers]
  rfl

/-- C12, witness of `collect_cache_miss`: the image `other` of the container
`job` does not resolve; the scrape is the metrics of the two containers before
it followed by its info metric with the empty digest label. -/
theorem collect_cache_miss_witness :
    okExporter.Collect =
      (collectPairs okExporter
        [(demoPod, { JSONPath := jsonPath ["spec", "containers"] 0, Name := "app",
                     Image := "repo:v1" }),
          (demoPodB, { JSONPath := jsonPath ["spec", "containers"] 0, Name := "api",
                       Image := "repo:v1" })] []).2 ++
        [infoMetric demoPodB
          { JSONPath := jsonPath ["spec", "containers"] 1, Name := "job", Image := "other" } ""] :=
  (collect_cache_miss okExporter _ [] _ _ okExporter_reached okExporter_fetch.2).1

/-! ## Theorems: freshness per digest -/

theorem Get_tag_after_put (c : cacheImpl) (repo1 tag1 repo2 tag2 : String)
    (img : ContainerImage) (t : Int)
    (halias : c.digestMap (Reference.tag repo1 tag1).String = some img.Digest)
    (hne : img.Digest ≠ "") :
    (c.Put (.tag repo2 tag2) (some img) t).2.Get (.tag repo1 tag1) =
      .ok { ContainerImage := img, Time := t } := by
  rw [Get_tag_eq]
  by_cases hk : (Reference.tag repo1 tag1).String = (Reference.tag repo2 tag2).String
  · simp [cacheImpl.Put, mapSet, hk, hne]
  · simp [cacheImpl.Put, mapSet, hk, halias, hne]

/-- C21 (as amended): for every cache state, tag references `t1` and `t2`
and image `img` with a non-empty digest `d` to which `t1` is aliased, after
`Put(t2, img)` at time `T` the lookup `Get(t1)` returns the entry holding
`img` stamped `T`, whatever time the entry of `d` carried before; and at every
time `now < T + ttl` the resolver answers an image string that parses to `t1`
with `img` from the cache, leaves the cache as it is and gives the same
result whatever `remote.Get` would answer. -/
theorem freshness_per_digest (c : cacheImpl) (repo1 tag1 repo2 tag2 : String)
    (img : ContainerImage) (T : Int)
    (halias : c.digestMap (Reference.tag repo1 tag1).String = some img.Digest)
    (hne : img.Digest ≠ "") :
    (c.Put (.tag repo2 tag2) (some img) T).2.Get (.tag repo1 tag1) =
        .ok { ContainerImage := img, Time := T } ∧
      ∀ (r : ContainerImageReconciler) (reg : Registry) (now putNow : Int) (imgRef : String),
        reg.ParseReference imgRef = .ok (.tag repo1 tag1) → now < T + r.CacheDuration →
        ∀ remoteGet' : Reference → Except Error remoteDescriptor,
          r.getImage { ParseReference := reg.ParseReference, remoteGet := remoteGet' }
            (some (c.Put (.tag repo2 tag2) (some img) T).2) now putNow imgRef =
            .ret (.ok img, some (c.Put (.tag repo2 tag2) (some img) T).2) := by
  have hget := Get_tag_after_put c repo1 tag1 repo2 tag2 img T halias hne
  refine ⟨hget, ?_⟩
  intro r reg now putNow imgRef hp hfresh remoteGet'
  rw [getImage_some_eq]
  simp [hp, hget, hfresh]

/-- C21, witness of `freshness_per_digest`: `repo:v1` was stored at time 0
with digest `sha256:aa`; a `Put` of that image under `repo:latest` at time 100
makes `Get` of `repo:v1` return the entry stamped 100, and the resolver with a
duration of 10 answers `repo:v1` from the cache at time 105. -/
theorem freshness_per_digest_witness :
    (demoCache.Put (.tag "repo" "latest") (some (imageWithDigest "sha256:aa")) 100).2.Get
        (.tag "repo" "v1") =
        .ok { ContainerImage := imageWithDigest "sha256:aa", Time := 100 } ∧
      ∀ remoteGet' : Reference → Except Error remoteDescriptor,
        demoReconciler.getImage
          { ParseReference := demoRegistry.ParseReference, remoteGet := remoteGet' }
          (some (demoCache.Put (.tag "repo" "latest") (some (imageWithDigest "sha256:aa")) 100).2)
          105 105 "repo:v1" =
          .ret (.ok (imageWithDigest "sha256:aa"),
            some (demoCache.Put (.tag "repo" "latest")
              (some (imageWithDigest "sha256:aa")) 100).2) :=
  have h := freshness_per_digest demoCache "repo" "v1" "repo" "latest"
    (imageWithDigest "sha256:aa") 100 (by decide) (by decide)
  ⟨h.1, h.2 demoReconciler demoRegistry 105 105 "repo:v1" (by decide) (by decide)⟩

/-- C21, counterexample to the claim as stated: the tags `repo:v1` and
`repo:latest` are aliased to the same, empty, digest and the image was put
under `repo:latest` at time 5; `Get` of `repo:v1` returns no entry, and at
time 6, within the duration of 10, the resolver goes to the registry for
`repo:v1` and stores what it fetched. -/
theorem freshness_per_digest_counterexample :
    emptyDigestCache.digestMap (Reference.tag "repo" "v1").String = some "" ∧
      emptyDigestCache.digestMap (Reference.tag "repo" "latest").String = some "" ∧
      emptyDigestCache.imageMap "" = some { ContainerImage := imageWithDigest "", Time := 5 } ∧
      emptyDigestCache.Get (.tag "repo" "v1") = .error Error.notFound ∧
      demoReconciler.getImage strictRegistry (some emptyDigestCache) 6 6 "repo:v1" =
        .ret (.ok demoFetched,
          some (emptyDigestCache.Put (.tag "repo" "v1") (some demoFetched) 6).2) := by
  have hg : emptyDigestCache.Get (.tag "repo" "v1") = .error Error.notFound := by decide
  refine ⟨by decide, by decide, by decide, hg, ?_⟩
  rw [getImage_some_eq]
  simp [strictRegistry, demoRegistry, hg, remoteImage, demoDescriptor, getImage, OCIImageIndex,
    DockerManifestList, Outcome.bind, demoImage, imageSize, wrap64, demoFetched]

/-! ## Theorems: children without a platform -/

theorem scanManifests_reaches_nil (p : Platform) (x : v1Descriptor) (post : List v1Descriptor)
    (hx : x.Platform = none) (pre : List v1Descriptor)
    (hpre : ∀ m ∈ pre, ∃ mp, m.Platform = some mp ∧ mp.Equals p = false) :
    scanManifests p (pre ++ x :: post) =
      .panic "invalid memory address or nil pointer dereference" := by
  induction pre with
  | nil => simp [scanManifests, hx]
  | cons m rest ih =>
    obtain ⟨mp, hmp, hneq⟩ := hpre m (List.mem_cons_self _ _)
    have hrest := ih (fun m' hm' => hpre m' (List.mem_cons_of_mem _ hm'))
    simp [scanManifests, hmp, hneq, hrest]

theorem selectManifest_no_preference (first : v1Descriptor) (rest : List v1Descriptor) :
    selectManifest none first rest = .ret first := rfl

/-- C22, the code at the failing inputs.  For the single child `X` without a
platform and the preference `linux/amd64` the claim picks `X`; for the
children `[A (linux/arm64), X (no platform), B (linux/amd64)]` and the same
preference it picks `B`.  In both the loop of `getImage` dereferences the nil
platform of `X` and panics, so the selection does not complete and `getImage`
does not return; only without a preference is `X` passed over unharmed. -/
theorem selection_faults_on_nil_platform :
    selectManifest (some (linuxPlatform "amd64")) { Digest := "sha256:x", Platform := none } [] =
        .panic "invalid memory address or nil pointer dereference" ∧
      selectManifest (some (linuxPlatform "amd64"))
        { Digest := "sha256:a", Platform := some (linuxPlatform "arm64") }
        [{ Digest := "sha256:x", Platform := none },
          { Digest := "sha256:b", Platform := some (linuxPlatform "amd64") }] =
        .panic "invalid memory address or nil pointer dereference" ∧
      getImage
        (demoIndex [{ Digest := "sha256:a", Platform := some (linuxPlatform "arm64") },
          { Digest := "sha256:x", Platform := none },
          { Digest := "sha256:b", Platform := some (linuxPlatform "amd64") }])
        (some (linuxPlatform "amd64")) =
        .panic "invalid memory address or nil pointer dereference" ∧
      selectManifest none { Digest := "sha256:x", Platform := none }
        [{ Digest := "sha256:b", Platform := some (linuxPlatform "amd64") }] =
        .ret { Digest := "sha256:x", Platform := none } := by
  refine ⟨?_, ?_, ?_, ?_⟩ <;> decide

end ContainerImageExporter
